import Mathlib

/-!
Verification of the wasmi bytecode instruction encoder
(`crates/wasmi/src/engine/translator/instr_encoder.rs`).

The development shallowly embeds the encoder: the instruction sequence is a
`List Instruction`, encoder state is passed explicitly, fallible operations
return `Except EncError`.  Rust panics are modelled as the dedicated
`EncError.panic*` constructors, so that a panic and a returned `Error` remain
distinguishable.  The `Instruction` type models the subset of the bytecode ISA
that the verified properties are about; all other opcodes fall into the
wildcard arms of the translated functions, exactly as in the source.

Auxiliary collaborators of the encoder (value stack, label registry, bytecode
payload helpers) are declared in other crates of the repository; their
definitions here are modelled from the specification and are marked
`Modelled from the spec:` in their doc comments.
-/

namespace Wasmi

/-- A register index.  In the source this is a 16-bit signed index (`i16`);
we model it as an unbounded integer, which is faithful for all comparisons
and arithmetic the encoder performs on it. -/
abbrev Reg := Int

/-- Modelled from the spec: classification of a register returned by the
value stack's `get_register_space`. -/
inductive RegisterSpace where
  | localSpace
  | dynamicSpace
  | storageSpace
deriving DecidableEq

/-- Payload of a binary instruction: `BinInstr { result, lhs, rhs }`. -/
structure BinInstr where
  result : Reg
  lhs : Reg
  rhs : Reg
deriving DecidableEq

/-- Payload of a binary instruction with 16-bit immediate:
`BinInstrImm16<T> { result, reg_in, imm_in }`. -/
structure BinInstrImm16 where
  result : Reg
  regIn : Reg
  immIn : Int
deriving DecidableEq

/-- Payload of a fused compare+branch instruction: two operand registers and
a 16-bit branch offset. -/
structure BranchBinOpInstr where
  lhs : Reg
  rhs : Reg
  offset : Int
deriving DecidableEq

/-- Payload of a fused compare+branch instruction with immediate operand. -/
structure BranchBinOpInstrImm where
  regIn : Reg
  immIn : Int
  offset : Int
deriving DecidableEq

/-- A contiguous register span `[head, ..)`. -/
structure RegisterSpan where
  head : Reg
deriving DecidableEq

/-- A register span iterator: contiguous range `[head, head+len)`. -/
structure RegisterSpanIter where
  head : Reg
  len : Nat
deriving DecidableEq

/-- The current span of the iterator. -/
def RegisterSpanIter.span (it : RegisterSpanIter) : RegisterSpan :=
  ⟨it.head⟩

/-- Advancing the iterator by one register. -/
def RegisterSpanIter.next (it : RegisterSpanIter) : RegisterSpanIter :=
  ⟨it.head + 1, it.len - 1⟩

/-- The list of registers the iterator ranges over. -/
def RegisterSpanIter.toList (it : RegisterSpanIter) : List Reg :=
  (List.range it.len).map fun (i : Nat) => it.head + (i : Int)

/-- The instruction words of the bytecode ISA that the verified properties
are about (tagged variants with the payloads of the source). -/
inductive Instruction where
  | consumeFuel (amount : Nat)
  | copy (result : Reg) (value : Reg)
  | copyImm32 (result : Reg) (value : Nat)
  | copyI64Imm32 (result : Reg) (value : Int)
  | copyF64Imm32 (result : Reg) (value : Nat)
  | copy2 (results : RegisterSpan) (v0 v1 : Reg)
  | copySpan (results : RegisterSpan) (values : RegisterSpan) (len : Nat)
  | copySpanNonOverlapping (results : RegisterSpan) (values : RegisterSpan) (len : Nat)
  | copyMany (results : RegisterSpan) (v0 v1 : Reg)
  | copyManyNonOverlapping (results : RegisterSpan) (v0 v1 : Reg)
  | ret
  | returnReg (r : Reg)
  | returnReg2 (r0 r1 : Reg)
  | returnReg3 (r0 r1 r2 : Reg)
  | returnImm32 (value : Nat)
  | returnI64Imm32 (value : Int)
  | returnF64Imm32 (value : Nat)
  | returnSpan (values : RegisterSpanIter)
  | returnMany (r0 r1 r2 : Reg)
  | register (r : Reg)
  | register2 (r0 r1 : Reg)
  | register3 (r0 r1 r2 : Reg)
  | registerList (r0 r1 r2 : Reg)
  | i32Add (instr : BinInstr)
  | i32And (instr : BinInstr)
  | i32Or (instr : BinInstr)
  | i32Xor (instr : BinInstr)
  | i32AndEqz (instr : BinInstr)
  | i32OrEqz (instr : BinInstr)
  | i32XorEqz (instr : BinInstr)
  | i32AndImm16 (instr : BinInstrImm16)
  | i32OrImm16 (instr : BinInstrImm16)
  | i32XorImm16 (instr : BinInstrImm16)
  | i32AndEqzImm16 (instr : BinInstrImm16)
  | i32OrEqzImm16 (instr : BinInstrImm16)
  | i32XorEqzImm16 (instr : BinInstrImm16)
  | f32Eq (instr : BinInstr)
  | f32Ne (instr : BinInstr)
  | f32Lt (instr : BinInstr)
  | f32Le (instr : BinInstr)
  | f32Gt (instr : BinInstr)
  | f32Ge (instr : BinInstr)
  | f64Eq (instr : BinInstr)
  | f64Ne (instr : BinInstr)
  | f64Lt (instr : BinInstr)
  | f64Le (instr : BinInstr)
  | f64Gt (instr : BinInstr)
  | f64Ge (instr : BinInstr)
  | branchI32Eqz (condition : Reg) (offset : Int)
  | branchI32Nez (condition : Reg) (offset : Int)
  | branchF32Eq (instr : BranchBinOpInstr)
  | branchF32Ne (instr : BranchBinOpInstr)
  | branchF32Lt (instr : BranchBinOpInstr)
  | branchF32Le (instr : BranchBinOpInstr)
  | branchF32Gt (instr : BranchBinOpInstr)
  | branchF32Ge (instr : BranchBinOpInstr)
  | branchF64Eq (instr : BranchBinOpInstr)
  | branchF64Ne (instr : BranchBinOpInstr)
  | branchF64Lt (instr : BranchBinOpInstr)
  | branchF64Le (instr : BranchBinOpInstr)
  | branchF64Gt (instr : BranchBinOpInstr)
  | branchF64Ge (instr : BranchBinOpInstr)
  | branchI32And (instr : BranchBinOpInstr)
  | branchI32Or (instr : BranchBinOpInstr)
  | branchI32Xor (instr : BranchBinOpInstr)
  | branchI32AndEqz (instr : BranchBinOpInstr)
  | branchI32OrEqz (instr : BranchBinOpInstr)
  | branchI32XorEqz (instr : BranchBinOpInstr)
  | branchI32AndImm (instr : BranchBinOpInstrImm)
  | branchI32OrImm (instr : BranchBinOpInstrImm)
  | branchI32XorImm (instr : BranchBinOpInstrImm)
  | branchI32AndEqzImm (instr : BranchBinOpInstrImm)
  | branchI32OrEqzImm (instr : BranchBinOpInstrImm)
  | branchI32XorEqzImm (instr : BranchBinOpInstrImm)

/-- A typed constant value carried by a provider.  Floating-point payloads
are represented by their raw bit patterns. -/
inductive TypedValue where
  | i32 (v : Int)
  | i64 (v : Int)
  | f32 (bits : Nat)
  | f64 (bits : Nat)
  | funcRef (v : Nat)
  | extRef (v : Nat)
deriving DecidableEq

/-- A provider: either a register or a typed constant (`TypedProvider`). -/
inductive TypedProvider where
  | register (r : Reg)
  | const (v : TypedValue)
deriving DecidableEq

/-- Modelled from the spec: the translator's value stack as consumed by the
encoder — register-space classification, the constant pool used by
`alloc_const`, and the post-`finalize_alloc` register translation
`defrag_register`. -/
structure ValueStack where
  regSpace : Reg → RegisterSpace
  pool : List TypedValue
  defrag : Reg → Reg

/-- Modelled from the spec: `alloc_const` allocates a constant-pool slot and
returns a register in the constant space (negative indices below the
local/dynamic/storage spaces). -/
def ValueStack.allocConst (s : ValueStack) (v : TypedValue) : Reg × ValueStack :=
  (-1 - (s.pool.length : Int), { s with pool := s.pool ++ [v] })

/-- Errors and panics of the encoder.  The `panic*` constructors model Rust
panics (unrecoverable programming errors), the others model variants of the
returned `Error` type. -/
inductive EncError where
  | tooManyInstructions
  | offsetOutOfRange
  | fuelOverflow
  | panicInstrIndexOverflow
  | panicIndexOutOfBounds
  | panicAssert
  | panicNonFuelInstr
deriving DecidableEq

/-- Modelled from the spec: the label registry, with a pin target per label
and the recorded pending users. -/
structure LabelRegistry where
  pins : List (Option Nat)
  users : List (Nat × Nat)
deriving DecidableEq

/-- The encoder state: encoded instruction words, label registry, the
`last_instr` single-slot cache and the earliest preservation-affected
handle. -/
structure InstrEncoder where
  instrs : List Instruction
  labels : LabelRegistry
  lastInstr : Option Nat
  notifiedPreservation : Option Nat

/-- `Instr::from_usize`: conversion of an index to a 32-bit instruction
handle; `none` models the panic on overflow. -/
def instrFromUsize (value : Nat) : Option Nat :=
  if value < 2 ^ 32 then some value else none

/-- `InstrSequence::push`: appends a word and returns the handle of the
just-appended word.  Mirrors the source: the handle is computed by
`Instr::from_usize` on the length *before* the push, whose failure is a
panic; the function itself can only return `Ok`. -/
def pushRaw (instrs : List Instruction) (instruction : Instruction) :
    Except EncError (Nat × List Instruction) :=
  match instrFromUsize instrs.length with
  | some instr => .ok (instr, instrs ++ [instruction])
  | none => .error .panicInstrIndexOverflow

/-- `InstrSequence::push_before`: inserts a word at `instr`, shifting the
tail; returns the shifted handle `instr + 1`.  Out-of-bounds insertion and
`u32` overflow of the shifted handle are panics. -/
def pushBeforeRaw (instrs : List Instruction) (instr : Nat) (instruction : Instruction) :
    Except EncError (Nat × List Instruction) :=
  if instr ≤ instrs.length then
    if instr + 1 < 2 ^ 32 then .ok (instr + 1, instrs.insertIdx instr instruction)
    else .error .panicInstrIndexOverflow
  else .error .panicIndexOutOfBounds

/-- Modelled from the spec: the fuel cost table, with the baseline cost and
the amortized cost for n-way copies. -/
structure FuelCosts where
  base : Nat
  fuelForCopies : Nat → Nat

/-- Fuel metering information for the current block: disabled, or the cost
table together with the handle of the block's `ConsumeFuel` instruction. -/
inductive FuelInfo where
  | none
  | some (costs : FuelCosts) (instr : Nat)

/-- Modelled from the spec: `Instruction::bump_fuel_consumption` accumulates
`delta` into a `ConsumeFuel` word with a 64-bit overflow check; calling it
on any other word is a programming error. -/
def Instruction.bumpFuelConsumption (ins : Instruction) (delta : Nat) :
    Except EncError Instruction :=
  match ins with
  | .consumeFuel amount =>
      if amount + delta < 2 ^ 64 then .ok (.consumeFuel (amount + delta))
      else .error .fuelOverflow
  | _ => .error .panicNonFuelInstr

/-- `InstrEncoder::bump_fuel_consumption`: no-op when metering is disabled,
otherwise bumps the `ConsumeFuel` word at the block head. -/
def InstrEncoder.bumpFuelConsumption (st : InstrEncoder) (fuelInfo : FuelInfo)
    (f : FuelCosts → Nat) : Except EncError InstrEncoder :=
  match fuelInfo with
  | FuelInfo.none => .ok st
  | FuelInfo.some costs instr =>
      match st.instrs.get? instr with
      | Option.none => .error .panicIndexOutOfBounds
      | Option.some ins =>
          match ins.bumpFuelConsumption (f costs) with
          | .error e => .error e
          | .ok ins' => .ok { st with instrs := st.instrs.set instr ins' }

/-- `InstrEncoder::push_instr`: pushes a word and records it as
`last_instr`. -/
def InstrEncoder.pushInstr (st : InstrEncoder) (instr : Instruction) :
    Except EncError (Nat × InstrEncoder) :=
  match pushRaw st.instrs instr with
  | .error e => .error e
  | .ok (h, instrs) => .ok (h, { st with instrs := instrs, lastInstr := Option.some h })

/-- `InstrEncoder::append_instr` (and direct `self.instrs.push` calls):
pushes a word without touching `last_instr`. -/
def InstrEncoder.appendInstr (st : InstrEncoder) (instr : Instruction) :
    Except EncError (Nat × InstrEncoder) :=
  match pushRaw st.instrs instr with
  | .error e => .error e
  | .ok (h, instrs) => .ok (h, { st with instrs := instrs })

/-- The 32-bit pattern of an `i32` value (two's complement). -/
def u32OfI32 (v : Int) : Nat :=
  (v % 2 ^ 32).toNat

/-- Modelled from the spec: `Const32<i64>::try_from` succeeds iff the 64-bit
integer fits a sign-extended 32-bit immediate. -/
def i64ToConst32 (v : Int) : Option Int :=
  if -(2 ^ 31) ≤ v ∧ v < 2 ^ 31 then some v else none

/-- Modelled from the spec: `Const32<f64>::try_from` succeeds iff the 64-bit
float demotes losslessly to a 32-bit float; zero, infinities and normal
numbers inside the 32-bit exponent range with no lost mantissa bits fit,
everything else does not.  The payload is the 32-bit float pattern. -/
def f64ToConst32 (bits : Nat) : Option Nat :=
  let sign := bits / 2 ^ 63 % 2
  let expo := bits / 2 ^ 52 % 2 ^ 11
  let frac := bits % 2 ^ 52
  if expo = 0 ∧ frac = 0 then some (sign * 2 ^ 31)
  else if expo = 2 ^ 11 - 1 ∧ frac = 0 then some (sign * 2 ^ 31 + (2 ^ 8 - 1) * 2 ^ 23)
  else if 897 ≤ expo ∧ expo ≤ 1150 ∧ frac % 2 ^ 29 = 0 then
    some (sign * 2 ^ 31 + (expo - 896) * 2 ^ 23 + frac / 2 ^ 29)
  else none

/-- The instruction-selection match of `encode_copy`: `none` for the no-op
`copy x <- x`, otherwise the selected copy word (with the stack updated by
any constant allocation). -/
def copyInstrFor (stack : ValueStack) (result : Reg) (value : TypedProvider) :
    Option (Instruction × ValueStack) :=
  match value with
  | .register v =>
      if result = v then Option.none
      else Option.some (.copy result v, stack)
  | .const tv =>
      match tv with
      | .i32 v => Option.some (.copyImm32 result (u32OfI32 v), stack)
      | .f32 b => Option.some (.copyImm32 result (b % 2 ^ 32), stack)
      | .i64 v =>
          match i64ToConst32 v with
          | Option.some c => Option.some (.copyI64Imm32 result c, stack)
          | Option.none =>
              let (cref, stack) := stack.allocConst tv
              Option.some (.copy result cref, stack)
      | .f64 b =>
          match f64ToConst32 b with
          | Option.some c => Option.some (.copyF64Imm32 result c, stack)
          | Option.none =>
              let (cref, stack) := stack.allocConst tv
              Option.some (.copy result cref, stack)
      | .funcRef _ =>
          let (cref, stack) := stack.allocConst tv
          Option.some (.copy result cref, stack)
      | .extRef _ =>
          let (cref, stack) := stack.allocConst tv
          Option.some (.copy result cref, stack)

/-- `InstrEncoder::encode_copy`: encodes `copy result <- value`, eliding the
no-op `copy x <- x` and selecting the most compact immediate variant for
constants; a real copy charges base fuel and pushes one word. -/
def InstrEncoder.encodeCopy (st : InstrEncoder) (stack : ValueStack) (result : Reg)
    (value : TypedProvider) (fuelInfo : FuelInfo) :
    Except EncError (Option Nat × InstrEncoder × ValueStack) :=
  match copyInstrFor stack result value with
  | Option.none => .ok (Option.none, st, stack)
  | Option.some (ins, stack) =>
      match st.bumpFuelConsumption fuelInfo FuelCosts.base with
      | .error e => .error e
      | .ok st =>
          match st.pushInstr ins with
          | .error e => .error e
          | .ok (h, st) => .ok (Option.some h, st, stack)

/-- `InstrEncoder::provider2reg`: a register is passed through, a constant is
allocated in the constant pool. -/
def provider2reg (stack : ValueStack) (p : TypedProvider) : Reg × ValueStack :=
  match p with
  | .register r => (r, stack)
  | .const v => stack.allocConst v

/-- `InstrEncoder::encode_register_list`: greedy chunking of a provider list
into `register_list` continuation words with a 1/2/3-register tail word. -/
def InstrEncoder.encodeRegisterList (st : InstrEncoder) (stack : ValueStack)
    (inputs : List TypedProvider) : Except EncError (InstrEncoder × ValueStack) :=
  match inputs with
  | [] => .ok (st, stack)
  | [v0] =>
      let (r0, stack) := provider2reg stack v0
      match st.appendInstr (.register r0) with
      | .error e => .error e
      | .ok (_, st) => .ok (st, stack)
  | [v0, v1] =>
      let (r0, stack) := provider2reg stack v0
      let (r1, stack) := provider2reg stack v1
      match st.appendInstr (.register2 r0 r1) with
      | .error e => .error e
      | .ok (_, st) => .ok (st, stack)
  | [v0, v1, v2] =>
      let (r0, stack) := provider2reg stack v0
      let (r1, stack) := provider2reg stack v1
      let (r2, stack) := provider2reg stack v2
      match st.appendInstr (.register3 r0 r1 r2) with
      | .error e => .error e
      | .ok (_, st) => .ok (st, stack)
  | v0 :: v1 :: v2 :: rest =>
      let (r0, stack) := provider2reg stack v0
      let (r1, stack) := provider2reg stack v1
      let (r2, stack) := provider2reg stack v2
      match st.appendInstr (.registerList r0 r1 r2) with
      | .error e => .error e
      | .ok (_, st) => st.encodeRegisterList stack rest

/-- Modelled from the spec: `RegisterSpanIter::from_providers` recognizes a
provider list that forms a contiguous register span. -/
def contiguousFrom (r : Reg) (values : List TypedProvider) : Bool :=
  match values with
  | [] => true
  | .register v :: rest => decide (v = r) && contiguousFrom (r + 1) rest
  | .const _ :: _ => false

/-- Modelled from the spec: a non-empty all-register provider list whose
registers are consecutive is a register span iterator. -/
def RegisterSpanIter.fromProviders (values : List TypedProvider) :
    Option RegisterSpanIter :=
  match values with
  | .register r :: _ =>
      if contiguousFrom r values then some ⟨r, values.length⟩ else none
  | _ => none

/-- Modelled from the spec: two equal-length spans `[d, d+n)` and `[s, s+n)`
overlap hazardously iff `s < d < s + n`
(`RegisterSpanIter::has_overlapping_copies`). -/
def hasOverlappingCopySpans (results values : RegisterSpan) (len : Nat) : Bool :=
  decide (values.head < results.head ∧ results.head < values.head + (len : Int))

/-- `InstrEncoder::has_overlapping_copies`: some value register falls inside
the destinations already written by earlier copies of the sequence. -/
def InstrEncoder.hasOverlappingCopies (results : RegisterSpanIter)
    (values : List TypedProvider) : Bool :=
  if results.len = 0 then false
  else
    let result0 := results.span.head
    (results.toList.zip values).any fun rv =>
      match rv.2 with
      | .register value => decide (result0 ≤ value ∧ value < rv.1)
      | .const _ => false

/-- The non-peeling part of `InstrEncoder::encode_copies`: dispatch on the
remaining length after the leading no-op copies have been stripped. -/
def InstrEncoder.encodeCopiesTail (st : InstrEncoder) (stack : ValueStack)
    (results : RegisterSpanIter) (values : List TypedProvider) (fuelInfo : FuelInfo) :
    Except EncError (InstrEncoder × ValueStack) :=
  let result := results.span.head
  match values with
  | [] => .ok (st, stack)
  | [v0] =>
      match st.encodeCopy stack result v0 fuelInfo with
      | .error e => .error e
      | .ok (_, st, stack) => .ok (st, stack)
  | [v0, v1] =>
      if TypedProvider.register (result + 1) = v1 then
        match st.encodeCopy stack result v0 fuelInfo with
        | .error e => .error e
        | .ok (_, st, stack) => .ok (st, stack)
      else
        let (reg0, stack) := provider2reg stack v0
        let (reg1, stack) := provider2reg stack v1
        match st.bumpFuelConsumption fuelInfo FuelCosts.base with
        | .error e => .error e
        | .ok st =>
            match st.pushInstr (.copy2 results.span reg0 reg1) with
            | .error e => .error e
            | .ok (_, st) => .ok (st, stack)
  | v0 :: v1 :: rest =>
      match st.bumpFuelConsumption fuelInfo FuelCosts.base with
      | .error e => .error e
      | .ok st =>
          match st.bumpFuelConsumption fuelInfo
              (fun costs => costs.fuelForCopies (rest.length + 3)) with
          | .error e => .error e
          | .ok st =>
              match RegisterSpanIter.fromProviders values with
              | Option.some spanIter =>
                  let mk := if hasOverlappingCopySpans results.span spanIter.span spanIter.len
                    then Instruction.copySpan else Instruction.copySpanNonOverlapping
                  match st.pushInstr (mk results.span spanIter.span spanIter.len) with
                  | .error e => .error e
                  | .ok (_, st) => .ok (st, stack)
              | Option.none =>
                  let mk := if InstrEncoder.hasOverlappingCopies results values
                    then Instruction.copyMany else Instruction.copyManyNonOverlapping
                  let (reg0, stack) := provider2reg stack v0
                  let (reg1, stack) := provider2reg stack v1
                  match st.pushInstr (mk results.span reg0 reg1) with
                  | .error e => .error e
                  | .ok (_, st) => st.encodeRegisterList stack rest

/-- `InstrEncoder::encode_copies`: strips leading no-op register-to-self
copies recursively, then dispatches on the remaining length.  The
`assert_eq!` on the lengths is modelled as the `panicAssert` outcome. -/
def InstrEncoder.encodeCopies (st : InstrEncoder) (stack : ValueStack)
    (results : RegisterSpanIter) (values : List TypedProvider) (fuelInfo : FuelInfo) :
    Except EncError (InstrEncoder × ValueStack) :=
  if results.len ≠ values.length then .error .panicAssert
  else
    match values with
    | .register v :: rest =>
        if results.span.head = v then
          st.encodeCopies stack results.next rest fuelInfo
        else st.encodeCopiesTail stack results values fuelInfo
    | _ => st.encodeCopiesTail stack results values fuelInfo

/-- `InstrEncoder::encode_return`: selects the optimal return variant by
arity, with fuel charging for four or more return values. -/
def InstrEncoder.encodeReturn (st : InstrEncoder) (stack : ValueStack)
    (values : List TypedProvider) (fuelInfo : FuelInfo) :
    Except EncError (InstrEncoder × ValueStack) :=
  let fin : InstrEncoder → ValueStack → Instruction →
      Except EncError (InstrEncoder × ValueStack) :=
    fun st stack ins =>
      match st.bumpFuelConsumption fuelInfo FuelCosts.base with
      | .error e => .error e
      | .ok st =>
          match st.pushInstr ins with
          | .error e => .error e
          | .ok (_, st) => .ok (st, stack)
  match values with
  | [] => fin st stack .ret
  | [.register reg] => fin st stack (.returnReg reg)
  | [.const value] =>
      match value with
      | .i32 v => fin st stack (.returnImm32 (u32OfI32 v))
      | .i64 v =>
          match i64ToConst32 v with
          | Option.some c => fin st stack (.returnI64Imm32 c)
          | Option.none =>
              let (r, stack) := stack.allocConst value
              fin st stack (.returnReg r)
      | .f32 b => fin st stack (.returnImm32 (b % 2 ^ 32))
      | .f64 b =>
          match f64ToConst32 b with
          | Option.some c => fin st stack (.returnF64Imm32 c)
          | Option.none =>
              let (r, stack) := stack.allocConst value
              fin st stack (.returnReg r)
      | .funcRef _ =>
          let (r, stack) := stack.allocConst value
          fin st stack (.returnReg r)
      | .extRef _ =>
          let (r, stack) := stack.allocConst value
          fin st stack (.returnReg r)
  | [v0, v1] =>
      let (reg0, stack) := provider2reg stack v0
      let (reg1, stack) := provider2reg stack v1
      fin st stack (.returnReg2 reg0 reg1)
  | [v0, v1, v2] =>
      let (reg0, stack) := provider2reg stack v0
      let (reg1, stack) := provider2reg stack v1
      let (reg2, stack) := provider2reg stack v2
      fin st stack (.returnReg3 reg0 reg1 reg2)
  | v0 :: v1 :: v2 :: rest =>
      match st.bumpFuelConsumption fuelInfo FuelCosts.base with
      | .error e => .error e
      | .ok st =>
          match st.bumpFuelConsumption fuelInfo
              (fun costs => costs.fuelForCopies (rest.length + 3)) with
          | .error e => .error e
          | .ok st =>
              match RegisterSpanIter.fromProviders values with
              | Option.some spanIter =>
                  match st.pushInstr (.returnSpan spanIter) with
                  | .error e => .error e
                  | .ok (_, st) => .ok (st, stack)
              | Option.none =>
                  let (reg0, stack) := provider2reg stack v0
                  let (reg1, stack) := provider2reg stack v1
                  let (reg2, stack) := provider2reg stack v2
                  match st.pushInstr (.returnMany reg0 reg1 reg2) with
                  | .error e => .error e
                  | .ok (_, st) => st.encodeRegisterList stack rest

/-- The module header; the encoder only passes it through to
`relink_result`, no field of it is consulted by the modelled opcodes. -/
abbrev ModuleHeader := Unit

/-- Modelled from the spec: `relink_result` swaps an instruction's
destination register from `oldResult` to `newResult`, returning `true` iff
the opcode accepts retargeting and its current destination is `oldResult`;
opcodes with non-trivial destination semantics refuse. -/
def Instruction.relinkResult (_res : ModuleHeader) (ins : Instruction)
    (newResult oldResult : Reg) : Except EncError (Bool × Instruction) :=
  let relinkBin : BinInstr → (BinInstr → Instruction) → Except EncError (Bool × Instruction) :=
    fun i mk =>
      if i.result = oldResult then .ok (true, mk { i with result := newResult })
      else .ok (false, ins)
  let relinkImm : BinInstrImm16 → (BinInstrImm16 → Instruction) →
      Except EncError (Bool × Instruction) :=
    fun i mk =>
      if i.result = oldResult then .ok (true, mk { i with result := newResult })
      else .ok (false, ins)
  match ins with
  | .copy result v =>
      if result = oldResult then .ok (true, .copy newResult v) else .ok (false, ins)
  | .copyImm32 result v =>
      if result = oldResult then .ok (true, .copyImm32 newResult v) else .ok (false, ins)
  | .copyI64Imm32 result v =>
      if result = oldResult then .ok (true, .copyI64Imm32 newResult v) else .ok (false, ins)
  | .copyF64Imm32 result v =>
      if result = oldResult then .ok (true, .copyF64Imm32 newResult v) else .ok (false, ins)
  | .i32Add i => relinkBin i .i32Add
  | .i32And i => relinkBin i .i32And
  | .i32Or i => relinkBin i .i32Or
  | .i32Xor i => relinkBin i .i32Xor
  | .i32AndEqz i => relinkBin i .i32AndEqz
  | .i32OrEqz i => relinkBin i .i32OrEqz
  | .i32XorEqz i => relinkBin i .i32XorEqz
  | .i32AndImm16 i => relinkImm i .i32AndImm16
  | .i32OrImm16 i => relinkImm i .i32OrImm16
  | .i32XorImm16 i => relinkImm i .i32XorImm16
  | .i32AndEqzImm16 i => relinkImm i .i32AndEqzImm16
  | .i32OrEqzImm16 i => relinkImm i .i32OrEqzImm16
  | .i32XorEqzImm16 i => relinkImm i .i32XorEqzImm16
  | .f32Eq i => relinkBin i .f32Eq
  | .f32Ne i => relinkBin i .f32Ne
  | .f32Lt i => relinkBin i .f32Lt
  | .f32Le i => relinkBin i .f32Le
  | .f32Gt i => relinkBin i .f32Gt
  | .f32Ge i => relinkBin i .f32Ge
  | .f64Eq i => relinkBin i .f64Eq
  | .f64Ne i => relinkBin i .f64Ne
  | .f64Lt i => relinkBin i .f64Lt
  | .f64Le i => relinkBin i .f64Le
  | .f64Gt i => relinkBin i .f64Gt
  | .f64Ge i => relinkBin i .f64Ge
  | _ => .ok (false, ins)

/-- `InstrEncoder::notify_preserved_register`: records the earliest handle
affected by a `local.set` preservation; later notifications are ignored. -/
def InstrEncoder.notifyPreservedRegister (st : InstrEncoder) (preserveInstr : Nat) :
    InstrEncoder :=
  match st.notifiedPreservation with
  | Option.some _ => st
  | Option.none => { st with notifiedPreservation := Option.some preserveInstr }

/-- The fallback path of `InstrEncoder::encode_local_set`: optionally
preserve via an appended copy, then encode a plain copy. -/
def InstrEncoder.localSetFallback (st : InstrEncoder) (stack : ValueStack)
    (localReg : Reg) (value : TypedProvider) (preserved : Option Reg)
    (fuelInfo : FuelInfo) : Except EncError (InstrEncoder × ValueStack) :=
  let afterPreserve : Except EncError InstrEncoder :=
    match preserved with
    | Option.none => .ok st
    | Option.some p =>
        match st.bumpFuelConsumption fuelInfo FuelCosts.base with
        | .error e => .error e
        | .ok st =>
            match st.pushInstr (.copy p localReg) with
            | .error e => .error e
            | .ok (h, st) => .ok (st.notifyPreservedRegister h)
  match afterPreserve with
  | .error e => .error e
  | .ok st =>
      match st.encodeCopy stack localReg value fuelInfo with
      | .error e => .error e
      | .ok (_, st, stack) => .ok (st, stack)

/-- `InstrEncoder::encode_local_set`: retargets the last instruction's
result to the local register instead of emitting a copy, when the
optimization's preconditions hold; otherwise falls back. -/
def InstrEncoder.encodeLocalSet (st : InstrEncoder) (stack : ValueStack)
    (res : ModuleHeader) (localReg : Reg) (value : TypedProvider)
    (preserved : Option Reg) (fuelInfo : FuelInfo) :
    Except EncError (InstrEncoder × ValueStack) :=
  match value with
  | .const _ => st.localSetFallback stack localReg value preserved fuelInfo
  | .register returnedValue =>
      if stack.regSpace returnedValue = RegisterSpace.localSpace then
        st.localSetFallback stack localReg value preserved fuelInfo
      else
        match st.lastInstr with
        | Option.none => st.localSetFallback stack localReg value preserved fuelInfo
        | Option.some lastInstr =>
            if preserved.isSome ∧ 4 ≤ Nat.dist lastInstr st.instrs.length then
              st.localSetFallback stack localReg value preserved fuelInfo
            else
              match st.instrs.get? lastInstr with
              | Option.none => .error .panicIndexOutOfBounds
              | Option.some ins =>
                  match ins.relinkResult res localReg returnedValue with
                  | .error e => .error e
                  | .ok (false, _) =>
                      st.localSetFallback stack localReg value preserved fuelInfo
                  | .ok (true, ins') =>
                      let st := { st with instrs := st.instrs.set lastInstr ins' }
                      match preserved with
                      | Option.none => .ok (st, stack)
                      | Option.some p =>
                          match st.bumpFuelConsumption fuelInfo FuelCosts.base with
                          | .error e => .error e
                          | .ok st =>
                              match pushBeforeRaw st.instrs lastInstr (.copy p localReg) with
                              | .error e => .error e
                              | .ok (shifted, instrs) =>
                                  let st := { st with instrs := instrs }
                                  let st := st.notifyPreservedRegister lastInstr
                                  .ok ({ st with lastInstr := Option.some shifted }, stack)

/-- Modelled from the spec: `visit_input_registers` maps every *input*
(operand) register of an instruction word; destination registers are not
remapped. -/
def Instruction.visitInputRegisters (ins : Instruction) (f : Reg → Reg) : Instruction :=
  let binIn : BinInstr → BinInstr :=
    fun i => { i with lhs := f i.lhs, rhs := f i.rhs }
  let immIn : BinInstrImm16 → BinInstrImm16 :=
    fun i => { i with regIn := f i.regIn }
  let brIn : BranchBinOpInstr → BranchBinOpInstr :=
    fun i => { i with lhs := f i.lhs, rhs := f i.rhs }
  let brImmIn : BranchBinOpInstrImm → BranchBinOpInstrImm :=
    fun i => { i with regIn := f i.regIn }
  match ins with
  | .consumeFuel a => .consumeFuel a
  | .copy result v => .copy result (f v)
  | .copyImm32 result v => .copyImm32 result v
  | .copyI64Imm32 result v => .copyI64Imm32 result v
  | .copyF64Imm32 result v => .copyF64Imm32 result v
  | .copy2 results v0 v1 => .copy2 results (f v0) (f v1)
  | .copySpan results values len => .copySpan results ⟨f values.head⟩ len
  | .copySpanNonOverlapping results values len =>
      .copySpanNonOverlapping results ⟨f values.head⟩ len
  | .copyMany results v0 v1 => .copyMany results (f v0) (f v1)
  | .copyManyNonOverlapping results v0 v1 =>
      .copyManyNonOverlapping results (f v0) (f v1)
  | .ret => .ret
  | .returnReg r => .returnReg (f r)
  | .returnReg2 r0 r1 => .returnReg2 (f r0) (f r1)
  | .returnReg3 r0 r1 r2 => .returnReg3 (f r0) (f r1) (f r2)
  | .returnImm32 v => .returnImm32 v
  | .returnI64Imm32 v => .returnI64Imm32 v
  | .returnF64Imm32 v => .returnF64Imm32 v
  | .returnSpan values => .returnSpan ⟨f values.head, values.len⟩
  | .returnMany r0 r1 r2 => .returnMany (f r0) (f r1) (f r2)
  | .register r => .register (f r)
  | .register2 r0 r1 => .register2 (f r0) (f r1)
  | .register3 r0 r1 r2 => .register3 (f r0) (f r1) (f r2)
  | .registerList r0 r1 r2 => .registerList (f r0) (f r1) (f r2)
  | .i32Add i => .i32Add (binIn i)
  | .i32And i => .i32And (binIn i)
  | .i32Or i => .i32Or (binIn i)
  | .i32Xor i => .i32Xor (binIn i)
  | .i32AndEqz i => .i32AndEqz (binIn i)
  | .i32OrEqz i => .i32OrEqz (binIn i)
  | .i32XorEqz i => .i32XorEqz (binIn i)
  | .i32AndImm16 i => .i32AndImm16 (immIn i)
  | .i32OrImm16 i => .i32OrImm16 (immIn i)
  | .i32XorImm16 i => .i32XorImm16 (immIn i)
  | .i32AndEqzImm16 i => .i32AndEqzImm16 (immIn i)
  | .i32OrEqzImm16 i => .i32OrEqzImm16 (immIn i)
  | .i32XorEqzImm16 i => .i32XorEqzImm16 (immIn i)
  | .f32Eq i => .f32Eq (binIn i)
  | .f32Ne i => .f32Ne (binIn i)
  | .f32Lt i => .f32Lt (binIn i)
  | .f32Le i => .f32Le (binIn i)
  | .f32Gt i => .f32Gt (binIn i)
  | .f32Ge i => .f32Ge (binIn i)
  | .f64Eq i => .f64Eq (binIn i)
  | .f64Ne i => .f64Ne (binIn i)
  | .f64Lt i => .f64Lt (binIn i)
  | .f64Le i => .f64Le (binIn i)
  | .f64Gt i => .f64Gt (binIn i)
  | .f64Ge i => .f64Ge (binIn i)
  | .branchI32Eqz c o => .branchI32Eqz (f c) o
  | .branchI32Nez c o => .branchI32Nez (f c) o
  | .branchF32Eq i => .branchF32Eq (brIn i)
  | .branchF32Ne i => .branchF32Ne (brIn i)
  | .branchF32Lt i => .branchF32Lt (brIn i)
  | .branchF32Le i => .branchF32Le (brIn i)
  | .branchF32Gt i => .branchF32Gt (brIn i)
  | .branchF32Ge i => .branchF32Ge (brIn i)
  | .branchF64Eq i => .branchF64Eq (brIn i)
  | .branchF64Ne i => .branchF64Ne (brIn i)
  | .branchF64Lt i => .branchF64Lt (brIn i)
  | .branchF64Le i => .branchF64Le (brIn i)
  | .branchF64Gt i => .branchF64Gt (brIn i)
  | .branchF64Ge i => .branchF64Ge (brIn i)
  | .branchI32And i => .branchI32And (brIn i)
  | .branchI32Or i => .branchI32Or (brIn i)
  | .branchI32Xor i => .branchI32Xor (brIn i)
  | .branchI32AndEqz i => .branchI32AndEqz (brIn i)
  | .branchI32OrEqz i => .branchI32OrEqz (brIn i)
  | .branchI32XorEqz i => .branchI32XorEqz (brIn i)
  | .branchI32AndImm i => .branchI32AndImm (brImmIn i)
  | .branchI32OrImm i => .branchI32OrImm (brImmIn i)
  | .branchI32XorImm i => .branchI32XorImm (brImmIn i)
  | .branchI32AndEqzImm i => .branchI32AndEqzImm (brImmIn i)
  | .branchI32OrEqzImm i => .branchI32OrEqzImm (brImmIn i)
  | .branchI32XorEqzImm i => .branchI32XorEqzImm (brImmIn i)

/-- `InstrEncoder::defrag_registers`: if a preservation was notified at some
handle, remap the input registers of every instruction from that handle on;
otherwise do nothing.  Out-of-bounds slicing is a panic. -/
def InstrEncoder.defragRegisters (st : InstrEncoder) (stack : ValueStack) :
    Except EncError InstrEncoder :=
  match st.notifiedPreservation with
  | Option.none => .ok st
  | Option.some h =>
      if h ≤ st.instrs.length then
        .ok { st with instrs :=
          st.instrs.take h ++
            (st.instrs.drop h).map (fun ins => ins.visitInputRegisters stack.defrag) }
      else .error .panicIndexOutOfBounds

/-- The fusion table of `InstrEncoder::fuse_i32_eqz`: an
`i32.{and,or,xor}[_imm16]` whose destination is not in local space is
rewritten to the corresponding `eqz` variant. -/
def i32EqzFused (stack : ValueStack) (ins : Instruction) : Option Instruction :=
  match ins with
  | .i32And i =>
      if stack.regSpace i.result = RegisterSpace.localSpace then Option.none
      else Option.some (.i32AndEqz i)
  | .i32AndImm16 i =>
      if stack.regSpace i.result = RegisterSpace.localSpace then Option.none
      else Option.some (.i32AndEqzImm16 i)
  | .i32Or i =>
      if stack.regSpace i.result = RegisterSpace.localSpace then Option.none
      else Option.some (.i32OrEqz i)
  | .i32OrImm16 i =>
      if stack.regSpace i.result = RegisterSpace.localSpace then Option.none
      else Option.some (.i32OrEqzImm16 i)
  | .i32Xor i =>
      if stack.regSpace i.result = RegisterSpace.localSpace then Option.none
      else Option.some (.i32XorEqz i)
  | .i32XorImm16 i =>
      if stack.regSpace i.result = RegisterSpace.localSpace then Option.none
      else Option.some (.i32XorEqzImm16 i)
  | _ => Option.none

/-- `InstrEncoder::fuse_i32_eqz`: rewrites the last instruction in place to
its `eqz`-fused variant when possible; returns whether it did. -/
def InstrEncoder.fuseI32Eqz (st : InstrEncoder) (stack : ValueStack) :
    Except EncError (Bool × InstrEncoder) :=
  match st.lastInstr with
  | Option.none => .ok (false, st)
  | Option.some lastInstr =>
      match st.instrs.get? lastInstr with
      | Option.none => .error .panicIndexOutOfBounds
      | Option.some ins =>
          match i32EqzFused stack ins with
          | Option.none => .ok (false, st)
          | Option.some fused =>
              .ok (true, { st with instrs := st.instrs.set lastInstr fused })

/-- Modelled from the spec: `try_resolve_label_for` returns `target − user`
for a pinned label, and records the pending user and returns the
uninitialized sentinel offset (`0`) for an unpinned one.  An invalid label
handle is a programming error. -/
def tryResolveLabelFor (labels : LabelRegistry) (label : Nat) (user : Nat) :
    Except EncError (Int × LabelRegistry) :=
  match labels.pins.get? label with
  | Option.none => .error .panicIndexOutOfBounds
  | Option.some (Option.some target) => .ok ((target : Int) - (user : Int), labels)
  | Option.some Option.none =>
      .ok (0, { labels with users := labels.users ++ [(label, user)] })

/-- Modelled from the spec: `BranchOffset16::new` keeps the uninitialized
sentinel and accepts initialized offsets in the signed 16-bit range. -/
def branchOffset16New (offset : Int) : Option Int :=
  if offset = 0 then some 0
  else if -(2 ^ 15) ≤ offset ∧ offset < 2 ^ 15 then some offset
  else none

/-- Modelled from the spec: `BranchOffset16::try_from` errors (instead of
falling back) on an out-of-range initialized offset. -/
def branchOffset16TryFrom (offset : Int) : Except EncError Int :=
  match branchOffset16New offset with
  | some o => .ok o
  | none => .error .offsetOutOfRange

/-- The `fuse` helper of the branch encoders: refuse a local-space result,
resolve the label for the last instruction, and build the fused word when
the offset fits 16 bits. -/
def fuseCmpBranch (st : InstrEncoder) (stack : ValueStack) (lastInstr : Nat)
    (instr : BinInstr) (label : Nat) (makeInstr : Reg → Reg → Int → Instruction) :
    Except EncError (Option Instruction × InstrEncoder) :=
  if stack.regSpace instr.result = RegisterSpace.localSpace then .ok (Option.none, st)
  else
    match tryResolveLabelFor st.labels label lastInstr with
    | .error e => .error e
    | .ok (offset, labels) =>
        let st := { st with labels := labels }
        match branchOffset16New offset with
        | Option.some offset16 => .ok (Option.some (makeInstr instr.lhs instr.rhs offset16), st)
        | Option.none => .ok (Option.none, st)

/-- The `fuse_imm` helper of the branch encoders. -/
def fuseCmpBranchImm (st : InstrEncoder) (stack : ValueStack) (lastInstr : Nat)
    (instr : BinInstrImm16) (label : Nat) (makeInstr : Reg → Int → Int → Instruction) :
    Except EncError (Option Instruction × InstrEncoder) :=
  if stack.regSpace instr.result = RegisterSpace.localSpace then .ok (Option.none, st)
  else
    match tryResolveLabelFor st.labels label lastInstr with
    | .error e => .error e
    | .ok (offset, labels) =>
        let st := { st with labels := labels }
        match branchOffset16New offset with
        | Option.some offset16 =>
            .ok (Option.some (makeInstr instr.regIn instr.immIn offset16), st)
        | Option.none => .ok (Option.none, st)

/-- The fallback of `encode_branch_eqz`: an unfused `branch_i32_eqz`. -/
def InstrEncoder.encodeBranchEqzFallback (st : InstrEncoder) (condition : Reg)
    (label : Nat) : Except EncError InstrEncoder :=
  match tryResolveLabelFor st.labels label st.instrs.length with
  | .error e => .error e
  | .ok (offset, labels) =>
      match branchOffset16TryFrom offset with
      | .error e => .error e
      | .ok offset16 =>
          match InstrEncoder.pushInstr { st with labels := labels }
              (.branchI32Eqz condition offset16) with
          | .error e => .error e
          | .ok (_, st) => .ok st

/-- `InstrEncoder::encode_branch_eqz`: tries to fuse with the previous
comparison (negating the predicate); among the float comparisons only
`F32Eq` and `F32Ne` have fusion arms here. -/
def InstrEncoder.encodeBranchEqz (st : InstrEncoder) (stack : ValueStack)
    (condition : Reg) (label : Nat) : Except EncError InstrEncoder :=
  match st.lastInstr with
  | Option.none => st.encodeBranchEqzFallback condition label
  | Option.some lastInstr =>
      match st.instrs.get? lastInstr with
      | Option.none => .error .panicIndexOutOfBounds
      | Option.some lastIns =>
          let fusedSt : Except EncError (Option Instruction × InstrEncoder) :=
            match lastIns with
            | .i32And i => fuseCmpBranch st stack lastInstr i label
                (fun l r o => .branchI32AndEqz ⟨l, r, o⟩)
            | .i32Or i => fuseCmpBranch st stack lastInstr i label
                (fun l r o => .branchI32OrEqz ⟨l, r, o⟩)
            | .i32Xor i => fuseCmpBranch st stack lastInstr i label
                (fun l r o => .branchI32XorEqz ⟨l, r, o⟩)
            | .i32AndEqz i => fuseCmpBranch st stack lastInstr i label
                (fun l r o => .branchI32And ⟨l, r, o⟩)
            | .i32OrEqz i => fuseCmpBranch st stack lastInstr i label
                (fun l r o => .branchI32Or ⟨l, r, o⟩)
            | .i32XorEqz i => fuseCmpBranch st stack lastInstr i label
                (fun l r o => .branchI32Xor ⟨l, r, o⟩)
            | .f32Eq i => fuseCmpBranch st stack lastInstr i label
                (fun l r o => .branchF32Ne ⟨l, r, o⟩)
            | .f32Ne i => fuseCmpBranch st stack lastInstr i label
                (fun l r o => .branchF32Eq ⟨l, r, o⟩)
            | .i32AndImm16 i => fuseCmpBranchImm st stack lastInstr i label
                (fun r m o => .branchI32AndEqzImm ⟨r, m, o⟩)
            | .i32OrImm16 i => fuseCmpBranchImm st stack lastInstr i label
                (fun r m o => .branchI32OrEqzImm ⟨r, m, o⟩)
            | .i32XorImm16 i => fuseCmpBranchImm st stack lastInstr i label
                (fun r m o => .branchI32XorEqzImm ⟨r, m, o⟩)
            | .i32AndEqzImm16 i => fuseCmpBranchImm st stack lastInstr i label
                (fun r m o => .branchI32AndImm ⟨r, m, o⟩)
            | .i32OrEqzImm16 i => fuseCmpBranchImm st stack lastInstr i label
                (fun r m o => .branchI32OrImm ⟨r, m, o⟩)
            | .i32XorEqzImm16 i => fuseCmpBranchImm st stack lastInstr i label
                (fun r m o => .branchI32XorImm ⟨r, m, o⟩)
            | _ => .ok (Option.none, st)
          match fusedSt with
          | .error e => .error e
          | .ok (Option.some fusedInstr, st) =>
              .ok { st with instrs := st.instrs.set lastInstr fusedInstr }
          | .ok (Option.none, st) => st.encodeBranchEqzFallback condition label

/-- The fallback of `encode_branch_nez`: an unfused `branch_i32_nez`. -/
def InstrEncoder.encodeBranchNezFallback (st : InstrEncoder) (condition : Reg)
    (label : Nat) : Except EncError InstrEncoder :=
  match tryResolveLabelFor st.labels label st.instrs.length with
  | .error e => .error e
  | .ok (offset, labels) =>
      match branchOffset16TryFrom offset with
      | .error e => .error e
      | .ok offset16 =>
          match InstrEncoder.pushInstr { st with labels := labels }
              (.branchI32Nez condition offset16) with
          | .error e => .error e
          | .ok (_, st) => .ok st

/-- `InstrEncoder::encode_branch_nez`: tries to fuse with the previous
comparison keeping its polarity; all twelve float comparisons have fusion
arms here. -/
def InstrEncoder.encodeBranchNez (st : InstrEncoder) (stack : ValueStack)
    (condition : Reg) (label : Nat) : Except EncError InstrEncoder :=
  match st.lastInstr with
  | Option.none => st.encodeBranchNezFallback condition label
  | Option.some lastInstr =>
      match st.instrs.get? lastInstr with
      | Option.none => .error .panicIndexOutOfBounds
      | Option.some lastIns =>
          let fusedSt : Except EncError (Option Instruction × InstrEncoder) :=
            match lastIns with
            | .i32And i => fuseCmpBranch st stack lastInstr i label
                (fun l r o => .branchI32And ⟨l, r, o⟩)
            | .i32Or i => fuseCmpBranch st stack lastInstr i label
                (fun l r o => .branchI32Or ⟨l, r, o⟩)
            | .i32Xor i => fuseCmpBranch st stack lastInstr i label
                (fun l r o => .branchI32Xor ⟨l, r, o⟩)
            | .i32AndEqz i => fuseCmpBranch st stack lastInstr i label
                (fun l r o => .branchI32AndEqz ⟨l, r, o⟩)
            | .i32OrEqz i => fuseCmpBranch st stack lastInstr i label
                (fun l r o => .branchI32OrEqz ⟨l, r, o⟩)
            | .i32XorEqz i => fuseCmpBranch st stack lastInstr i label
                (fun l r o => .branchI32XorEqz ⟨l, r, o⟩)
            | .f32Eq i => fuseCmpBranch st stack lastInstr i label
                (fun l r o => .branchF32Eq ⟨l, r, o⟩)
            | .f32Ne i => fuseCmpBranch st stack lastInstr i label
                (fun l r o => .branchF32Ne ⟨l, r, o⟩)
            | .f32Lt i => fuseCmpBranch st stack lastInstr i label
                (fun l r o => .branchF32Lt ⟨l, r, o⟩)
            | .f32Le i => fuseCmpBranch st stack lastInstr i label
                (fun l r o => .branchF32Le ⟨l, r, o⟩)
            | .f32Gt i => fuseCmpBranch st stack lastInstr i label
                (fun l r o => .branchF32Gt ⟨l, r, o⟩)
            | .f32Ge i => fuseCmpBranch st stack lastInstr i label
                (fun l r o => .branchF32Ge ⟨l, r, o⟩)
            | .f64Eq i => fuseCmpBranch st stack lastInstr i label
                (fun l r o => .branchF64Eq ⟨l, r, o⟩)
            | .f64Ne i => fuseCmpBranch st stack lastInstr i label
                (fun l r o => .branchF64Ne ⟨l, r, o⟩)
            | .f64Lt i => fuseCmpBranch st stack lastInstr i label
                (fun l r o => .branchF64Lt ⟨l, r, o⟩)
            | .f64Le i => fuseCmpBranch st stack lastInstr i label
                (fun l r o => .branchF64Le ⟨l, r, o⟩)
            | .f64Gt i => fuseCmpBranch st stack lastInstr i label
                (fun l r o => .branchF64Gt ⟨l, r, o⟩)
            | .f64Ge i => fuseCmpBranch st stack lastInstr i label
                (fun l r o => .branchF64Ge ⟨l, r, o⟩)
            | .i32AndImm16 i => fuseCmpBranchImm st stack lastInstr i label
                (fun r m o => .branchI32AndImm ⟨r, m, o⟩)
            | .i32OrImm16 i => fuseCmpBranchImm st stack lastInstr i label
                (fun r m o => .branchI32OrImm ⟨r, m, o⟩)
            | .i32XorImm16 i => fuseCmpBranchImm st stack lastInstr i label
                (fun r m o => .branchI32XorImm ⟨r, m, o⟩)
            | .i32AndEqzImm16 i => fuseCmpBranchImm st stack lastInstr i label
                (fun r m o => .branchI32AndEqzImm ⟨r, m, o⟩)
            | .i32OrEqzImm16 i => fuseCmpBranchImm st stack lastInstr i label
                (fun r m o => .branchI32OrEqzImm ⟨r, m, o⟩)
            | .i32XorEqzImm16 i => fuseCmpBranchImm st stack lastInstr i label
                (fun r m o => .branchI32XorEqzImm ⟨r, m, o⟩)
            | _ => .ok (Option.none, st)
          match fusedSt with
          | .error e => .error e
          | .ok (Option.some fusedInstr, st) =>
              .ok { st with instrs := st.instrs.set lastInstr fusedInstr }
          | .ok (Option.none, st) => st.encodeBranchNezFallback condition label

/-- The twelve float comparison opcodes. -/
inductive FloatCmpOp where
  | f32eq
  | f32ne
  | f32lt
  | f32le
  | f32gt
  | f32ge
  | f64eq
  | f64ne
  | f64lt
  | f64le
  | f64gt
  | f64ge
deriving DecidableEq

/-- The comparison instruction word of a float comparison opcode. -/
def FloatCmpOp.toInstr : FloatCmpOp → BinInstr → Instruction
  | .f32eq => .f32Eq
  | .f32ne => .f32Ne
  | .f32lt => .f32Lt
  | .f32le => .f32Le
  | .f32gt => .f32Gt
  | .f32ge => .f32Ge
  | .f64eq => .f64Eq
  | .f64ne => .f64Ne
  | .f64lt => .f64Lt
  | .f64le => .f64Le
  | .f64gt => .f64Gt
  | .f64ge => .f64Ge

/-- The same-polarity fused branch word of a float comparison opcode, as
emitted by `encode_branch_nez`. -/
def FloatCmpOp.sameBranch : FloatCmpOp → BinInstr → Int → Instruction
  | .f32eq => fun b o => .branchF32Eq ⟨b.lhs, b.rhs, o⟩
  | .f32ne => fun b o => .branchF32Ne ⟨b.lhs, b.rhs, o⟩
  | .f32lt => fun b o => .branchF32Lt ⟨b.lhs, b.rhs, o⟩
  | .f32le => fun b o => .branchF32Le ⟨b.lhs, b.rhs, o⟩
  | .f32gt => fun b o => .branchF32Gt ⟨b.lhs, b.rhs, o⟩
  | .f32ge => fun b o => .branchF32Ge ⟨b.lhs, b.rhs, o⟩
  | .f64eq => fun b o => .branchF64Eq ⟨b.lhs, b.rhs, o⟩
  | .f64ne => fun b o => .branchF64Ne ⟨b.lhs, b.rhs, o⟩
  | .f64lt => fun b o => .branchF64Lt ⟨b.lhs, b.rhs, o⟩
  | .f64le => fun b o => .branchF64Le ⟨b.lhs, b.rhs, o⟩
  | .f64gt => fun b o => .branchF64Gt ⟨b.lhs, b.rhs, o⟩
  | .f64ge => fun b o => .branchF64Ge ⟨b.lhs, b.rhs, o⟩

/-- The float fusion table of `encode_branch_eqz` as implemented: only
`F32Eq` and `F32Ne` are fused (to the negated predicate); every other float
comparison has no arm and falls through to the unfused fallback. -/
def eqzFloatFusion : FloatCmpOp → Option (BinInstr → Int → Instruction)
  | .f32eq => some fun b o => .branchF32Ne ⟨b.lhs, b.rhs, o⟩
  | .f32ne => some fun b o => .branchF32Eq ⟨b.lhs, b.rhs, o⟩
  | _ => none

/-- The copy-family instruction words that `encode_copy` can emit. -/
def isCopyInstr : Instruction → Bool
  | .copy _ _ => true
  | .copyImm32 _ _ => true
  | .copyI64Imm32 _ _ => true
  | .copyF64Imm32 _ _ => true
  | _ => false

/-- The single-value return words that `encode_return` can emit for one
constant value. -/
def isSingleReturnInstr : Instruction → Bool
  | .returnReg _ => true
  | .returnImm32 _ => true
  | .returnI64Imm32 _ => true
  | .returnF64Imm32 _ => true
  | _ => false

/-- A sample value stack: registers `0..3` are locals, everything else is
dynamic; no constants allocated; the identity defragmentation map. -/
def sampleStack : ValueStack :=
  { regSpace := fun r => if r < 4 then RegisterSpace.localSpace else RegisterSpace.dynamicSpace
    pool := []
    defrag := fun r => r + 100 }

/-- A sample fuel cost table. -/
def sampleCosts : FuelCosts :=
  { base := 1, fuelForCopies := fun n => n }

/-- An empty label registry. -/
def emptyLabels : LabelRegistry :=
  { pins := [], users := [] }

/-- A sample encoder state whose last instruction is an `F64Eq` comparison
into a dynamic register, with one label pinned at index `1`. -/
def stF64Eq : InstrEncoder :=
  { instrs := [.f64Eq ⟨5, 6, 7⟩]
    labels := { pins := [Option.some 1], users := [] }
    lastInstr := Option.some 0
    notifiedPreservation := Option.none }

/-- A sample encoder state whose last instruction is an `i32.add` into a
dynamic register, for the `local.set` preservation scenario. -/
def stLocalSet : InstrEncoder :=
  { instrs := [.i32Add ⟨5, 1, 2⟩]
    labels := emptyLabels
    lastInstr := Option.some 0
    notifiedPreservation := Option.none }

section Theorems

theorem pushRaw_of_lt {instrs : List Instruction} (w : Instruction)
    (h : instrs.length < 2 ^ 32) :
    pushRaw instrs w = .ok (instrs.length, instrs ++ [w]) := by
  unfold pushRaw instrFromUsize
  rw [if_pos h]

theorem pushRaw_ok_inv {instrs : List Instruction} {w : Instruction} {h' : Nat}
    {instrs' : List Instruction} (h : pushRaw instrs w = .ok (h', instrs')) :
    h' = instrs.length ∧ instrs' = instrs ++ [w] ∧ instrs.length < 2 ^ 32 := by
  unfold pushRaw instrFromUsize at h
  split at h
  · next hlt => simp_all
  · simp_all

theorem pushInstr_of_lt (st : InstrEncoder) (w : Instruction)
    (h : st.instrs.length < 2 ^ 32) :
    st.pushInstr w = .ok (st.instrs.length,
      { st with instrs := st.instrs ++ [w], lastInstr := Option.some st.instrs.length }) := by
  unfold InstrEncoder.pushInstr
  rw [pushRaw_of_lt w h]

theorem pushInstr_ok_inv {st : InstrEncoder} {w : Instruction} {h' : Nat}
    {st' : InstrEncoder} (h : st.pushInstr w = .ok (h', st')) :
    h' = st.instrs.length ∧
      st' = { st with instrs := st.instrs ++ [w], lastInstr := Option.some st.instrs.length } ∧
      st.instrs.length < 2 ^ 32 := by
  unfold InstrEncoder.pushInstr at h
  split at h
  · simp_all
  · next heq =>
      obtain ⟨h1, h2, h3⟩ := pushRaw_ok_inv heq
      simp only [Except.ok.injEq, Prod.mk.injEq] at h
      obtain ⟨ha, hb⟩ := h
      subst h1 h2 ha
      exact ⟨rfl, hb.symm, h3⟩

theorem bumpFuel_none (st : InstrEncoder) (f : FuelCosts → Nat) :
    st.bumpFuelConsumption FuelInfo.none f = .ok st := rfl

theorem bumpFuel_ok_inv {st : InstrEncoder} {fi : FuelInfo} {f : FuelCosts → Nat}
    {st' : InstrEncoder} (h : st.bumpFuelConsumption fi f = .ok st') :
    st'.instrs.length = st.instrs.length ∧ st'.lastInstr = st.lastInstr ∧
      st'.labels = st.labels ∧ st'.notifiedPreservation = st.notifiedPreservation := by
  unfold InstrEncoder.bumpFuelConsumption at h
  split at h
  · simp_all
  · split at h
    · simp_all
    · split at h
      · simp_all
      · next heq =>
          simp only [Except.ok.injEq] at h
          subst h
          simp

theorem bumpFuel_consumeFuel (st : InstrEncoder) (costs : FuelCosts) (idx n : Nat)
    (f : FuelCosts → Nat) (hf : st.instrs.get? idx = Option.some (.consumeFuel n))
    (hov : n + f costs < 2 ^ 64) :
    st.bumpFuelConsumption (FuelInfo.some costs idx) f =
      .ok { st with instrs := st.instrs.set idx (.consumeFuel (n + f costs)) } := by
  have hb : Instruction.bumpFuelConsumption (.consumeFuel n) (f costs) =
      .ok (.consumeFuel (n + f costs)) := by
    simp only [Instruction.bumpFuelConsumption]
    rw [if_pos hov]
  simp only [InstrEncoder.bumpFuelConsumption, hf, hb]

/-- C3 (code_bug): `push` appends the word and returns the handle equal to
the length before the call; but on 32-bit handle overflow it *panics* in
`Instr::from_usize` — it cannot return any error, in particular not the
`TooManyInstructions` error that the specification (and `push`'s own doc
comment) promise. -/
theorem claim3_push_handle_and_overflow (instrs : List Instruction) (w : Instruction) :
    (instrs.length < 2 ^ 32 → pushRaw instrs w = .ok (instrs.length, instrs ++ [w]))
    ∧ (2 ^ 32 ≤ instrs.length → pushRaw instrs w = .error .panicInstrIndexOverflow)
    ∧ (∀ e, pushRaw instrs w = .error e → e = .panicInstrIndexOverflow) := by
  refine ⟨fun h => pushRaw_of_lt w h, fun h => ?_, fun e he => ?_⟩
  · unfold pushRaw instrFromUsize
    rw [if_neg (Nat.not_lt.mpr h)]
  · unfold pushRaw instrFromUsize at he
    split at he <;> simp_all

/-- Witness for C3: a normal push returns the old length as handle; a push
onto a sequence of `2 ^ 32` words is the panic outcome, not the
`TooManyInstructions` error. -/
theorem claim3_witness :
    pushRaw [] .ret = .ok (0, [.ret]) ∧
      pushRaw (List.replicate (2 ^ 32) .ret) .ret = .error .panicInstrIndexOverflow := by
  constructor
  · exact ((claim3_push_handle_and_overflow [] .ret).1 (by norm_num)).trans rfl
  · exact (claim3_push_handle_and_overflow (List.replicate (2 ^ 32) .ret) .ret).2.1
      (by rw [List.length_replicate])

theorem zip_any_iff {α β : Type} (p : α × β → Bool) :
    ∀ (l₁ : List α) (l₂ : List β),
      ((l₁.zip l₂).any p = true ↔
        ∃ i, ∃ h₁ : i < l₁.length, ∃ h₂ : i < l₂.length,
          p (l₁.get ⟨i, h₁⟩, l₂.get ⟨i, h₂⟩) = true)
  | [], l₂ => by simp
  | a :: l₁, [] => by simp
  | a :: l₁, b :: l₂ => by
      rw [List.zip_cons_cons, List.any_cons, Bool.or_eq_true, zip_any_iff p l₁ l₂]
      constructor
      · rintro (h | ⟨i, h₁, h₂, h⟩)
        · exact ⟨0, Nat.succ_pos _, Nat.succ_pos _, h⟩
        · exact ⟨i + 1, Nat.succ_lt_succ h₁, Nat.succ_lt_succ h₂, h⟩
      · rintro ⟨i, h₁, h₂, h⟩
        cases i with
        | zero => exact Or.inl h
        | succ i =>
            exact Or.inr ⟨i, Nat.lt_of_succ_lt_succ h₁, Nat.lt_of_succ_lt_succ h₂, h⟩

theorem spanIter_toList_length (it : RegisterSpanIter) :
    it.toList.length = it.len := by
  unfold RegisterSpanIter.toList
  rw [List.length_map, List.length_range]

theorem spanIter_toList_get (it : RegisterSpanIter) (i : Nat)
    (h : i < it.toList.length) :
    it.toList.get ⟨i, h⟩ = it.head + (i : Int) := by
  simp only [RegisterSpanIter.toList, List.get_eq_getElem, List.getElem_map,
    List.getElem_range]

/-- C4 (confirmed): `has_overlapping_copies` returns `true` iff some
provider at position `i` is a register `v` with `d0 ≤ v < d0 + i` where
`d0` is the destination head; in particular the empty sequence and
all-constant sequences never overlap. -/
theorem claim4_has_overlapping_copies (results : RegisterSpanIter)
    (values : List TypedProvider) (hlen : results.len = values.length) :
    (InstrEncoder.hasOverlappingCopies results values = true ↔
      ∃ i, ∃ hi : i < values.length, ∃ v : Reg,
        values.get ⟨i, hi⟩ = TypedProvider.register v ∧
          results.head ≤ v ∧ v < results.head + (i : Int))
    ∧ (values = [] → InstrEncoder.hasOverlappingCopies results values = false)
    ∧ ((∀ p ∈ values, ∀ v : Reg, p ≠ TypedProvider.register v) →
        InstrEncoder.hasOverlappingCopies results values = false) := by
  have core : InstrEncoder.hasOverlappingCopies results values = true ↔
      ∃ i, ∃ hi : i < values.length, ∃ v : Reg,
        values.get ⟨i, hi⟩ = TypedProvider.register v ∧
          results.head ≤ v ∧ v < results.head + (i : Int) := by
    unfold InstrEncoder.hasOverlappingCopies
    by_cases h0 : results.len = 0
    · rw [if_pos h0]
      have : values.length = 0 := by omega
      have hnil : values = [] := List.length_eq_zero.mp this
      subst hnil
      simp
    · rw [if_neg h0, zip_any_iff]
      constructor
      · rintro ⟨i, h₁, h₂, hp⟩
        rcases hv : values.get ⟨i, h₂⟩ with v | c
        · refine ⟨i, h₂, v, hv, ?_⟩
          rw [hv, spanIter_toList_get] at hp
          simpa [RegisterSpanIter.span] using of_decide_eq_true hp
        · rw [hv] at hp
          simp at hp
      · rintro ⟨i, hi, v, hv, hlo, hhi⟩
        have h₁ : i < results.toList.length := by
          rw [spanIter_toList_length]; omega
        refine ⟨i, h₁, hi, ?_⟩
        rw [hv, spanIter_toList_get]
        simp only [RegisterSpanIter.span]
        exact decide_eq_true ⟨hlo, hhi⟩
  refine ⟨core, fun hnil => ?_, fun hconst => ?_⟩
  · subst hnil
    unfold InstrEncoder.hasOverlappingCopies
    by_cases h0 : results.len = 0 <;> simp [h0]
  · rcases h : InstrEncoder.hasOverlappingCopies results values with _ | _
    · rfl
    · exfalso
      obtain ⟨i, hi, v, hv, -, -⟩ := core.mp h
      exact hconst _ (values.get_mem _ _) v hv

/-- Witness for C4: the literal boundary scenario from the specification —
destinations `[3, 6)`, providers `[Reg 2, Reg 3, Reg 2]` — overlaps because
the second provider equals the first destination. -/
theorem claim4_witness :
    InstrEncoder.hasOverlappingCopies ⟨3, 3⟩
      [.register 2, .register 3, .register 2] = true := by
  have h := (claim4_has_overlapping_copies ⟨3, 3⟩
    [.register 2, .register 3, .register 2] (by rfl)).1
  exact h.mpr ⟨1, by norm_num, 3, rfl, by norm_num, by norm_num⟩

/-- C9 (confirmed): with no preservation notification `defrag_registers`
leaves every instruction word unchanged; with the first notification at
handle `h` it rewrites only the input registers of instructions at handles
`≥ h` and leaves every instruction below `h` unchanged. -/
theorem claim9_defrag_locality (st : InstrEncoder) (stack : ValueStack) :
    (st.notifiedPreservation = Option.none → st.defragRegisters stack = .ok st)
    ∧ (∀ h, st.notifiedPreservation = Option.some h → h ≤ st.instrs.length →
        ∃ st', st.defragRegisters stack = .ok st' ∧
          st'.instrs.length = st.instrs.length ∧
          (∀ i, i < h → st'.instrs.get? i = st.instrs.get? i) ∧
          (∀ i, h ≤ i → st'.instrs.get? i =
            (st.instrs.get? i).map fun ins => ins.visitInputRegisters stack.defrag)) := by
  constructor
  · intro hn
    unfold InstrEncoder.defragRegisters
    rw [hn]
  · intro h hn hle
    simp only [InstrEncoder.defragRegisters, hn]
    rw [if_pos hle]
    refine ⟨_, rfl, ?_, ?_, ?_⟩
    · simp only [List.length_append, List.length_take, List.length_map, List.length_drop]
      omega
    · intro i hi
      have hlt : i < (st.instrs.take h).length := by
        simp only [List.length_take]
        omega
      rw [List.get?_append hlt, List.get?_take hi]
    · intro i hi
      have hlen : (st.instrs.take h).length = h := by
        simp only [List.length_take]
        omega
      rw [List.get?_append_right (by omega), hlen, List.get?_map, List.get?_drop]
      congr 2
      omega

/-- Witness for C9: a state with the notification at handle `1`: the word at
handle `0` is untouched while the `return_reg` at handle `1` has its input
register remapped. -/
theorem claim9_witness :
    ({ instrs := [.returnReg 7, .returnReg 8], labels := emptyLabels,
       lastInstr := Option.none,
       notifiedPreservation := Option.some 1 } : InstrEncoder).notifiedPreservation =
        Option.some 1 ∧
      (1 : Nat) ≤ 2 ∧
      ∃ st', InstrEncoder.defragRegisters
          { instrs := [.returnReg 7, .returnReg 8], labels := emptyLabels,
            lastInstr := Option.none, notifiedPreservation := Option.some 1 }
          sampleStack = .ok st' ∧
        st'.instrs.length = 2 ∧ st'.instrs.get? 0 = Option.some (.returnReg 7) ∧
        st'.instrs.get? 1 = Option.some (.returnReg 108) := by
  obtain ⟨st', h1, h2, h3, h4⟩ :=
    (claim9_defrag_locality
      { instrs := [.returnReg 7, .returnReg 8], labels := emptyLabels,
        lastInstr := Option.none, notifiedPreservation := Option.some 1 }
      sampleStack).2 1 rfl (by norm_num)
  refine ⟨rfl, by norm_num, st', h1, h2, ?_, ?_⟩
  · rw [h3 0 (by norm_num)]
    rfl
  · rw [h4 1 (by norm_num)]
    rfl

theorem appendInstr_ok_inv {st : InstrEncoder} {w : Instruction} {h' : Nat}
    {st' : InstrEncoder} (h : st.appendInstr w = .ok (h', st')) :
    h' = st.instrs.length ∧ st' = { st with instrs := st.instrs ++ [w] } ∧
      st.instrs.length < 2 ^ 32 := by
  unfold InstrEncoder.appendInstr at h
  split at h
  · simp_all
  · next heq =>
      obtain ⟨h1, h2, h3⟩ := pushRaw_ok_inv heq
      simp only [Except.ok.injEq, Prod.mk.injEq] at h
      obtain ⟨ha, hb⟩ := h
      subst h1 h2 ha
      exact ⟨rfl, hb.symm, h3⟩

theorem encodeRegisterList_shape :
    ∀ (inputs : List TypedProvider) (st : InstrEncoder) (stack : ValueStack)
      (st' : InstrEncoder) (stack' : ValueStack),
      st.encodeRegisterList stack inputs = .ok (st', stack') →
      st'.lastInstr = st.lastInstr ∧
      ∃ ws : List Instruction,
        st'.instrs = st.instrs ++ ws ∧
        ws.length = (inputs.length + 2) / 3 ∧
        (∀ w ∈ ws.dropLast, ∃ a b c, w = Instruction.registerList a b c) ∧
        (inputs = [] → ws = []) ∧
        (inputs.length % 3 = 1 → ∃ a, ws.getLast? = Option.some (Instruction.register a)) ∧
        (inputs.length % 3 = 2 →
          ∃ a b, ws.getLast? = Option.some (Instruction.register2 a b)) ∧
        (inputs ≠ [] → inputs.length % 3 = 0 →
          ∃ a b c, ws.getLast? = Option.some (Instruction.register3 a b c))
  | [], st, stack, st', stack' => by
      intro hok
      unfold InstrEncoder.encodeRegisterList at hok
      simp only [Except.ok.injEq, Prod.mk.injEq] at hok
      obtain ⟨h1, h2⟩ := hok
      subst h1
      exact ⟨rfl, [], by simp, by simp, by simp, by simp, by simp, by simp, by simp⟩
  | [v0], st, stack, st', stack' => by
      intro hok
      unfold InstrEncoder.encodeRegisterList at hok
      rcases hp : provider2reg stack v0 with ⟨r0, s0⟩
      rw [hp] at hok
      simp only at hok
      split at hok
      · exact absurd hok (by simp)
      · next n st1 heq =>
          obtain ⟨-, hst1, -⟩ := appendInstr_ok_inv heq
          simp only [Except.ok.injEq, Prod.mk.injEq] at hok
          obtain ⟨h1, -⟩ := hok
          subst hst1 h1
          refine ⟨rfl, [Instruction.register r0], rfl, by norm_num, by simp, by simp,
            fun _ => ⟨r0, rfl⟩, by norm_num, by simp⟩
  | [v0, v1], st, stack, st', stack' => by
      intro hok
      unfold InstrEncoder.encodeRegisterList at hok
      rcases hp0 : provider2reg stack v0 with ⟨r0, s0⟩
      rw [hp0] at hok
      simp only at hok
      rcases hp1 : provider2reg s0 v1 with ⟨r1, s1⟩
      rw [hp1] at hok
      simp only at hok
      split at hok
      · exact absurd hok (by simp)
      · next n st1 heq =>
          obtain ⟨-, hst1, -⟩ := appendInstr_ok_inv heq
          simp only [Except.ok.injEq, Prod.mk.injEq] at hok
          obtain ⟨h1, -⟩ := hok
          subst hst1 h1
          refine ⟨rfl, [Instruction.register2 r0 r1], rfl, by norm_num, by simp, by simp,
            by norm_num, fun _ => ⟨r0, r1, rfl⟩, by simp⟩
  | [v0, v1, v2], st, stack, st', stack' => by
      intro hok
      unfold InstrEncoder.encodeRegisterList at hok
      rcases hp0 : provider2reg stack v0 with ⟨r0, s0⟩
      rw [hp0] at hok
      simp only at hok
      rcases hp1 : provider2reg s0 v1 with ⟨r1, s1⟩
      rw [hp1] at hok
      simp only at hok
      rcases hp2 : provider2reg s1 v2 with ⟨r2, s2⟩
      rw [hp2] at hok
      simp only at hok
      split at hok
      · exact absurd hok (by simp)
      · next n st1 heq =>
          obtain ⟨-, hst1, -⟩ := appendInstr_ok_inv heq
          simp only [Except.ok.injEq, Prod.mk.injEq] at hok
          obtain ⟨h1, -⟩ := hok
          subst hst1 h1
          refine ⟨rfl, [Instruction.register3 r0 r1 r2], rfl, by norm_num, by simp,
            by simp, by norm_num, by norm_num, fun _ _ => ⟨r0, r1, r2, rfl⟩⟩
  | v0 :: v1 :: v2 :: v3 :: rest, st, stack, st', stack' => by
      intro hok
      unfold InstrEncoder.encodeRegisterList at hok
      rcases hp0 : provider2reg stack v0 with ⟨r0, s0⟩
      rw [hp0] at hok
      simp only at hok
      rcases hp1 : provider2reg s0 v1 with ⟨r1, s1⟩
      rw [hp1] at hok
      simp only at hok
      rcases hp2 : provider2reg s1 v2 with ⟨r2, s2⟩
      rw [hp2] at hok
      simp only at hok
      split at hok
      · exact absurd hok (by simp)
      · next n st1 heq =>
          obtain ⟨-, hst1, -⟩ := appendInstr_ok_inv heq
          subst hst1
          obtain ⟨hlast, ws', hinstrs, hlen, hdrop, -, h1, h2, h3⟩ :=
            encodeRegisterList_shape (v3 :: rest) _ s2 st' stack' hok
          have hne : ws' ≠ [] := by
            intro hcon
            rw [hcon] at hlen
            simp only [List.length_nil, List.length_cons] at hlen
            omega
          obtain ⟨w0, ws'', hws⟩ := List.exists_cons_of_ne_nil hne
          subst hws
          refine ⟨hlast, Instruction.registerList r0 r1 r2 :: w0 :: ws'', by
              rw [hinstrs]
              simp, ?_, ?_, by simp, ?_, ?_, ?_⟩
          · simp only [List.length_cons] at hlen ⊢
            omega
          · intro w hw
            rw [List.dropLast_cons₂] at hw
            rcases List.mem_cons.mp hw with hw | hw
            · exact ⟨r0, r1, r2, hw⟩
            · exact hdrop w hw
          · intro hm
            rw [List.getLast?_cons_cons]
            exact h1 (by simp only [List.length_cons] at hm ⊢; omega)
          · intro hm
            rw [List.getLast?_cons_cons]
            exact h2 (by simp only [List.length_cons] at hm ⊢; omega)
          · intro _ hm
            rw [List.getLast?_cons_cons]
            exact h3 (by simp) (by simp only [List.length_cons] at hm ⊢; omega)

/-- C10 (confirmed): `encode_register_list` terminates (it is a total
function here) and appends exactly `⌈n/3⌉` words: every word but the last is
a `register_list` continuation and the last is `register`, `register2` or
`register3` according to `n mod 3` (`register3` when `3 ∣ n`, `n ≥ 1`);
nothing is appended for `n = 0`. -/
theorem claim10_register_list (inputs : List TypedProvider) (st : InstrEncoder)
    (stack : ValueStack) (st' : InstrEncoder) (stack' : ValueStack)
    (hok : st.encodeRegisterList stack inputs = .ok (st', stack')) :
    ∃ ws : List Instruction,
      st'.instrs = st.instrs ++ ws ∧
      ws.length = (inputs.length + 2) / 3 ∧
      (∀ w ∈ ws.dropLast, ∃ a b c, w = Instruction.registerList a b c) ∧
      (inputs = [] → ws = []) ∧
      (inputs.length % 3 = 1 → ∃ a, ws.getLast? = Option.some (Instruction.register a)) ∧
      (inputs.length % 3 = 2 →
        ∃ a b, ws.getLast? = Option.some (Instruction.register2 a b)) ∧
      (inputs ≠ [] → inputs.length % 3 = 0 →
        ∃ a b c, ws.getLast? = Option.some (Instruction.register3 a b c)) := by
  obtain ⟨-, ws, hw⟩ := encodeRegisterList_shape inputs st stack st' stack' hok
  exact ⟨ws, hw⟩

/-- Witness for C10: five providers chunk into one `register_list`
continuation word and a final `register2`. -/
theorem claim10_witness :
    ∃ ws : List Instruction,
      ([.ret, .registerList 1 2 3, .register2 4 5] : List Instruction) =
          [Instruction.ret] ++ ws ∧
        ws.length = 2 ∧
        (∀ w ∈ ws.dropLast, ∃ a b c, w = Instruction.registerList a b c) ∧
        (([.register 1, .register 2, .register 3, .register 4,
            .register 5] : List TypedProvider) = [] → ws = []) ∧
        ((5 : Nat) % 3 = 1 → ∃ a, ws.getLast? = Option.some (Instruction.register a)) ∧
        ((5 : Nat) % 3 = 2 →
          ∃ a b, ws.getLast? = Option.some (Instruction.register2 a b)) ∧
        (([.register 1, .register 2, .register 3, .register 4,
            .register 5] : List TypedProvider) ≠ [] → (5 : Nat) % 3 = 0 →
          ∃ a b c, ws.getLast? = Option.some (Instruction.register3 a b c)) := by
  exact claim10_register_list
    [.register 1, .register 2, .register 3, .register 4, .register 5]
    { instrs := [.ret], labels := emptyLabels, lastInstr := Option.none,
      notifiedPreservation := Option.none }
    sampleStack
    { instrs := [.ret, .registerList 1 2 3, .register2 4 5], labels := emptyLabels,
      lastInstr := Option.none, notifiedPreservation := Option.none }
    sampleStack rfl

theorem copyInstrFor_none_iff (stack : ValueStack) (result : Reg)
    (value : TypedProvider) :
    copyInstrFor stack result value = Option.none ↔
      value = TypedProvider.register result := by
  cases value with
  | register v =>
      unfold copyInstrFor
      by_cases hv : result = v
      · subst hv
        simp
      · simp only [if_neg hv]
        simp [Ne.symm hv]
  | const tv =>
      cases tv <;> unfold copyInstrFor <;> simp <;> split <;> simp

theorem copyInstrFor_isCopy {stack : ValueStack} {result : Reg}
    {value : TypedProvider} {c : Instruction} {s : ValueStack}
    (h : copyInstrFor stack result value = Option.some (c, s)) :
    isCopyInstr c = true := by
  unfold copyInstrFor at h
  repeat' split at h
  all_goals
    simp only [Option.some.injEq, Prod.mk.injEq, reduceCtorEq] at h
  all_goals
    obtain ⟨h1, -⟩ := h
  all_goals subst h1
  all_goals rfl

/-- C7 (confirmed): `encode_copy(r, Register(r))` returns no instruction and
leaves the whole state (instruction sequence, fuel, stack) unchanged; for
any other destination/value pair a successful `encode_copy` appends exactly
one copy-family word and returns `Some` of its handle, the sequence length
before the call. -/
theorem claim7_encode_copy (st : InstrEncoder) (stack : ValueStack)
    (fuelInfo : FuelInfo) :
    (∀ r : Reg, st.encodeCopy stack r (.register r) fuelInfo =
        .ok (Option.none, st, stack))
    ∧ (∀ (result : Reg) (value : TypedProvider) (ores : Option Nat)
        (st' : InstrEncoder) (stack' : ValueStack),
        value ≠ TypedProvider.register result →
        st.encodeCopy stack result value fuelInfo = .ok (ores, st', stack') →
        ores = Option.some st.instrs.length ∧
        st'.instrs.length = st.instrs.length + 1 ∧
        st'.lastInstr = Option.some st.instrs.length ∧
        ∃ c, isCopyInstr c = true ∧ st'.instrs.getLast? = Option.some c) := by
  constructor
  · intro r
    have hn : copyInstrFor stack r (.register r) = Option.none :=
      (copyInstrFor_none_iff stack r (.register r)).mpr rfl
    simp only [InstrEncoder.encodeCopy, hn]
  · intro result value ores st' stack' hne hok
    unfold InstrEncoder.encodeCopy at hok
    rcases hc : copyInstrFor stack result value with _ | ⟨c, s⟩
    · exact absurd ((copyInstrFor_none_iff stack result value).mp hc) hne
    · rw [hc] at hok
      simp only at hok
      split at hok
      · exact absurd hok (by simp)
      · next st1 hb =>
          obtain ⟨hb1, -, -, -⟩ := bumpFuel_ok_inv hb
          split at hok
          · exact absurd hok (by simp)
          · next h2 st2 hp =>
              obtain ⟨hh, hst2, -⟩ := pushInstr_ok_inv hp
              simp only [Except.ok.injEq, Prod.mk.injEq] at hok
              obtain ⟨ho, hst', -⟩ := hok
              subst hst2 hst' hh ho
              refine ⟨by rw [hb1], ?_, by simp [hb1], c, copyInstrFor_isCopy hc, ?_⟩
              · simp [hb1]
              · simp

/-- Witness for C7: the literal boundary scenario `encode_copy(r5,
Register(r5))` changes nothing, while `encode_copy(r4, Register(r5))`
appends one `copy` word at handle `0`. -/
theorem claim7_witness :
    (({ instrs := [], labels := emptyLabels, lastInstr := Option.none,
        notifiedPreservation := Option.none } : InstrEncoder).encodeCopy
          sampleStack 5 (.register 5) FuelInfo.none =
        .ok (Option.none,
          { instrs := [], labels := emptyLabels, lastInstr := Option.none,
            notifiedPreservation := Option.none }, sampleStack))
    ∧ ((Option.some 0 : Option Nat) = Option.some 0 ∧ (1 : Nat) = 0 + 1 ∧
        (Option.some 0 : Option Nat) = Option.some 0 ∧
        ∃ c, isCopyInstr c = true ∧
          ([Instruction.copy 4 5].getLast? = Option.some c)) := by
  constructor
  · exact (claim7_encode_copy
      { instrs := [], labels := emptyLabels, lastInstr := Option.none,
        notifiedPreservation := Option.none } sampleStack FuelInfo.none).1 5
  · have h := (claim7_encode_copy
      { instrs := [], labels := emptyLabels, lastInstr := Option.none,
        notifiedPreservation := Option.none } sampleStack FuelInfo.none).2
      4 (.register 5) (Option.some 0)
      { instrs := [Instruction.copy 4 5], labels := emptyLabels,
        lastInstr := Option.some 0, notifiedPreservation := Option.none }
      sampleStack (by simp) rfl
    simpa using h

set_option maxHeartbeats 1000000 in
theorem i32EqzFused_isSome_iff (stack : ValueStack) (ins : Instruction) :
    (i32EqzFused stack ins).isSome = true ↔
      ((∃ i : BinInstr, (ins = .i32And i ∨ ins = .i32Or i ∨ ins = .i32Xor i) ∧
          stack.regSpace i.result ≠ RegisterSpace.localSpace) ∨
        (∃ i : BinInstrImm16,
          (ins = .i32AndImm16 i ∨ ins = .i32OrImm16 i ∨ ins = .i32XorImm16 i) ∧
          stack.regSpace i.result ≠ RegisterSpace.localSpace)) := by
  cases ins <;> simp [i32EqzFused]

/-- C5 (confirmed): `fuse_i32_eqz` returns `true` iff a last instruction
exists and is one of `I32And|Or|Xor[Imm16]` with a non-local result; on
`true` the last instruction is replaced in place, at the same handle, by the
corresponding `eqz` variant with the same payload and the sequence length is
unchanged; on `false` the encoder state is unchanged. -/
theorem claim5_fuse_i32_eqz (stack : ValueStack) (st : InstrEncoder)
    (hvalid : ∀ h, st.lastInstr = Option.some h → h < st.instrs.length) :
    ∃ b st', st.fuseI32Eqz stack = .ok (b, st') ∧
      (b = true ↔ (∃ h ins, st.lastInstr = Option.some h ∧
          st.instrs.get? h = Option.some ins ∧
          ((∃ i : BinInstr, (ins = .i32And i ∨ ins = .i32Or i ∨ ins = .i32Xor i) ∧
              stack.regSpace i.result ≠ RegisterSpace.localSpace) ∨
            (∃ i : BinInstrImm16,
              (ins = .i32AndImm16 i ∨ ins = .i32OrImm16 i ∨ ins = .i32XorImm16 i) ∧
              stack.regSpace i.result ≠ RegisterSpace.localSpace)))) ∧
      (b = false → st' = st) ∧
      st'.instrs.length = st.instrs.length ∧
      st'.lastInstr = st.lastInstr ∧
      (∀ h, st.lastInstr = Option.some h →
        (∀ i : BinInstr, st.instrs.get? h = Option.some (.i32And i) →
          stack.regSpace i.result ≠ RegisterSpace.localSpace →
          st' = { st with instrs := st.instrs.set h (.i32AndEqz i) }) ∧
        (∀ i : BinInstr, st.instrs.get? h = Option.some (.i32Or i) →
          stack.regSpace i.result ≠ RegisterSpace.localSpace →
          st' = { st with instrs := st.instrs.set h (.i32OrEqz i) }) ∧
        (∀ i : BinInstr, st.instrs.get? h = Option.some (.i32Xor i) →
          stack.regSpace i.result ≠ RegisterSpace.localSpace →
          st' = { st with instrs := st.instrs.set h (.i32XorEqz i) }) ∧
        (∀ i : BinInstrImm16, st.instrs.get? h = Option.some (.i32AndImm16 i) →
          stack.regSpace i.result ≠ RegisterSpace.localSpace →
          st' = { st with instrs := st.instrs.set h (.i32AndEqzImm16 i) }) ∧
        (∀ i : BinInstrImm16, st.instrs.get? h = Option.some (.i32OrImm16 i) →
          stack.regSpace i.result ≠ RegisterSpace.localSpace →
          st' = { st with instrs := st.instrs.set h (.i32OrEqzImm16 i) }) ∧
        (∀ i : BinInstrImm16, st.instrs.get? h = Option.some (.i32XorImm16 i) →
          stack.regSpace i.result ≠ RegisterSpace.localSpace →
          st' = { st with instrs := st.instrs.set h (.i32XorEqzImm16 i) })) := by
  rcases hl : st.lastInstr with _ | h
  · refine ⟨false, st, by simp [InstrEncoder.fuseI32Eqz, hl], by simp, fun _ => rfl,
      rfl, hl, fun h hcon => absurd hcon (by simp)⟩
  · have hh : h < st.instrs.length := hvalid h hl
    rcases hg : st.instrs.get? h with _ | ins
    · rw [List.get?_eq_none] at hg
      omega
    · rcases hf : i32EqzFused stack ins with _ | fused
      · refine ⟨false, st, by simp only [InstrEncoder.fuseI32Eqz, hl, hg, hf], ?_,
          fun _ => rfl, rfl, hl, ?_⟩
        · simp only [Bool.false_eq_true, false_iff]
          rintro ⟨h', ins', hl', hg', hshape⟩
          injection hl' with hl'
          subst hl'
          rw [hg] at hg'
          injection hg' with hg'
          subst hg'
          have hsome := (i32EqzFused_isSome_iff stack ins).mpr hshape
          rw [hf] at hsome
          simp at hsome
        · intro h' hl'
          injection hl' with hl'
          subst hl'
          refine ⟨?_, ?_, ?_, ?_, ?_, ?_⟩ <;>
            (intro i hg' hsp
             rw [hg] at hg'
             injection hg' with hg'
             subst hg'
             simp [i32EqzFused, hsp] at hf)
      · refine ⟨true, { st with instrs := st.instrs.set h fused },
          by simp only [InstrEncoder.fuseI32Eqz, hl, hg, hf], ?_, by simp, by simp, hl, ?_⟩
        · simp only [true_iff]
          refine ⟨h, ins, rfl, hg, ?_⟩
          have hsome : (i32EqzFused stack ins).isSome = true := by
            rw [hf]
            rfl
          exact (i32EqzFused_isSome_iff stack ins).mp hsome
        · intro h' hl'
          injection hl' with hl'
          subst hl'
          refine ⟨?_, ?_, ?_, ?_, ?_, ?_⟩ <;>
            (intro i hg' hsp
             rw [hg] at hg'
             injection hg' with hg'
             subst hg'
             simp only [i32EqzFused, if_neg hsp, Option.some.injEq] at hf
             subst hf
             rw [hl])

/-- Witness for C5: a dynamic-result `i32.and` as last instruction is fused
in place to `i32.and_eqz` at the same handle. -/
theorem claim5_witness :
    ∃ b st', InstrEncoder.fuseI32Eqz
        { instrs := [.i32And ⟨5, 1, 2⟩], labels := emptyLabels,
          lastInstr := Option.some 0, notifiedPreservation := Option.none }
        sampleStack = .ok (b, st') ∧ b = true ∧
      st'.instrs = [.i32AndEqz ⟨5, 1, 2⟩] := by
  obtain ⟨b, st', hrun, hiff, -, -, -, hmap⟩ :=
    claim5_fuse_i32_eqz sampleStack
      { instrs := [.i32And ⟨5, 1, 2⟩], labels := emptyLabels,
        lastInstr := Option.some 0, notifiedPreservation := Option.none }
      (by intro h hx; injection hx with hx; subst hx; norm_num)
  have hb : b = true := by
    rw [hiff]
    exact ⟨0, .i32And ⟨5, 1, 2⟩, rfl, rfl,
      Or.inl ⟨⟨5, 1, 2⟩, Or.inl rfl, by simp [sampleStack]⟩⟩
  have hst := ((hmap 0 rfl).1 ⟨5, 1, 2⟩ rfl (by simp [sampleStack]))
  exact ⟨b, st', hrun, hb, by rw [hst]; rfl⟩

theorem encodeCopies_peel_step (st : InstrEncoder) (stack : ValueStack)
    (results : RegisterSpanIter) (v : Reg) (rest : List TypedProvider)
    (fuelInfo : FuelInfo) (hlen : results.len = rest.length + 1)
    (hv : results.head = v) :
    st.encodeCopies stack results (.register v :: rest) fuelInfo =
      st.encodeCopies stack results.next rest fuelInfo := by
  conv_lhs => rw [InstrEncoder.encodeCopies]
  rw [if_neg (show ¬results.len ≠ (TypedProvider.register v :: rest).length by
    simp [hlen])]
  show (if results.span.head = v then st.encodeCopies stack results.next rest fuelInfo
    else st.encodeCopiesTail stack results (TypedProvider.register v :: rest) fuelInfo) =
      st.encodeCopies stack results.next rest fuelInfo
  rw [if_pos (show results.span.head = v from hv)]

/-- C6 (confirmed): when the first `k` providers are register providers equal
to the corresponding first `k` destination registers, `encode_copies` on the
full span and list produces exactly the same result (instruction stream,
fuel effect and stack) as `encode_copies` on the span advanced by `k` and
the list with its first `k` entries removed. -/
theorem claim6_copy_prefix_peel (st : InstrEncoder) (stack : ValueStack)
    (fuelInfo : FuelInfo) :
    ∀ (k : Nat) (results : RegisterSpanIter) (values : List TypedProvider),
      results.len = values.length → k ≤ values.length →
      (∀ i, i < k → values.get? i =
        Option.some (TypedProvider.register (results.head + (i : Int)))) →
      st.encodeCopies stack results values fuelInfo =
        st.encodeCopies stack ⟨results.head + (k : Int), results.len - k⟩
          (values.drop k) fuelInfo := by
  intro k
  induction k with
  | zero =>
      intro results values hlen hk hpre
      rcases results with ⟨rh, rl⟩
      simp
  | succ k ih =>
      intro results values hlen hk hpre
      rcases values with _ | ⟨v, rest⟩
      · simp at hk
      · have h0 := hpre 0 (Nat.succ_pos k)
        rw [List.get?_cons_zero] at h0
        injection h0 with h0
        subst h0
        rw [encodeCopies_peel_step st stack results _ rest fuelInfo
          (by simpa using hlen) (by simp)]
        have hlen' : results.next.len = rest.length := by
          simp only [RegisterSpanIter.next]
          simp at hlen
          omega
        have hk' : k ≤ rest.length := by
          simp at hk
          omega
        have hpre' : ∀ i, i < k → rest.get? i =
            Option.some (TypedProvider.register (results.next.head + (i : Int))) := by
          intro i hi
          have hp := hpre (i + 1) (Nat.succ_lt_succ hi)
          rw [List.get?_cons_succ] at hp
          rw [hp]
          simp only [RegisterSpanIter.next, Option.some.injEq,
            TypedProvider.register.injEq]
          push_cast
          ring
        rw [ih results.next rest hlen' hk' hpre']
        have hiter : results.next.head + (k : Int) =
            results.head + ((k + 1 : Nat) : Int) := by
          simp only [RegisterSpanIter.next]
          push_cast
          ring
        have hlen2 : results.next.len - k = results.len - (k + 1) := by
          simp only [RegisterSpanIter.next]
          omega
        rw [hiter, hlen2, List.drop_succ_cons]

/-- Witness for C6: over destination span `[3, 6)` with providers
`[Reg 3, Reg 4, Const 7]`, peeling the two leading self-copies leaves
`encode_copies` on span `[5, 6)` with `[Const 7]` — both runs yield the same
state. -/
theorem claim6_witness :
    InstrEncoder.encodeCopies
        { instrs := [], labels := emptyLabels, lastInstr := Option.none,
          notifiedPreservation := Option.none }
        sampleStack ⟨3, 3⟩
        [.register 3, .register 4, .const (.i32 7)] FuelInfo.none =
      InstrEncoder.encodeCopies
        { instrs := [], labels := emptyLabels, lastInstr := Option.none,
          notifiedPreservation := Option.none }
        sampleStack ⟨3 + (2 : Nat), 3 - 2⟩
        ([TypedProvider.register 3, .register 4, .const (.i32 7)].drop 2)
        FuelInfo.none := by
  exact claim6_copy_prefix_peel
    { instrs := [], labels := emptyLabels, lastInstr := Option.none,
      notifiedPreservation := Option.none }
    sampleStack FuelInfo.none 2 ⟨3, 3⟩
    [.register 3, .register 4, .const (.i32 7)] rfl (by norm_num)
    (by
      intro i hi
      interval_cases i <;> rfl)

/-- C2 (amended): when the optimized `encode_local_set` path applies with a
preserved register, the encoder inserts `copy(preserved, local)` before the
last instruction via `push_before`, the shifted handle `h + 1` becomes the
new `last_instr` — and preservation is notified at handle `h`, which after
the insertion refers to the inserted copy, *not* at the new last handle. -/
theorem claim2_local_set_preserved_amended (st : InstrEncoder) (stack : ValueStack)
    (res : ModuleHeader) (localReg rv p : Reg) (h : Nat) (ins ins' : Instruction)
    (hrv : ¬stack.regSpace rv = RegisterSpace.localSpace)
    (hlast : st.lastInstr = Option.some h)
    (hins : st.instrs.get? h = Option.some ins)
    (hdist : Nat.dist h st.instrs.length < 4)
    (hrelink : ins.relinkResult res localReg rv = .ok (true, ins'))
    (hnp : st.notifiedPreservation = Option.none)
    (hcap : h + 1 < 2 ^ 32) :
    st.encodeLocalSet stack res localReg (.register rv) (Option.some p)
        FuelInfo.none =
      .ok ({ st with
        instrs := (st.instrs.set h ins').insertIdx h (Instruction.copy p localReg),
        lastInstr := Option.some (h + 1),
        notifiedPreservation := Option.some h }, stack) := by
  have hh : h < st.instrs.length := by
    by_contra hcon
    rw [List.get?_eq_none.mpr (Nat.le_of_not_lt hcon)] at hins
    exact absurd hins (by simp)
  simp only [InstrEncoder.encodeLocalSet]
  rw [if_neg hrv]
  simp only [hlast]
  rw [if_neg (show ¬((Option.some p).isSome = true ∧
      4 ≤ Nat.dist h st.instrs.length) from fun hc => absurd hc.2 (by omega))]
  simp only [hins, hrelink, InstrEncoder.bumpFuelConsumption]
  unfold pushBeforeRaw
  rw [if_pos (show h ≤ (st.instrs.set h ins').length by
    rw [List.length_set]; omega)]
  rw [if_pos hcap]
  simp only [InstrEncoder.notifyPreservedRegister, hnp]

/-- Counterexample for C2 as frozen: in the specification's own boundary
scenario (last instruction `I32Add` into a dynamic register, preserved slot
set), the run notifies preservation at handle `0` — the position of the
inserted copy — while the new `last_instr` is handle `1`; the claim's
"preservation is notified at the new last handle" is false. -/
theorem claim2_counterexample :
    (InstrEncoder.encodeLocalSet stLocalSet sampleStack () 0 (.register 5)
          (Option.some 9) FuelInfo.none).map
        (fun x => (x.1.notifiedPreservation, x.1.lastInstr)) =
      .ok (Option.some 0, Option.some 1) ∧
      (Option.some 0 : Option Nat) ≠ Option.some 1 := by
  constructor
  · rfl
  · decide

/-- Witness for C2 (amended): the same scenario run end to end — the copy is
inserted before the relinked `i32.add`, the new `last_instr` is the shifted
handle `1`, and the notified preservation handle is `0`. -/
theorem claim2_witness :
    InstrEncoder.encodeLocalSet stLocalSet sampleStack () 0 (.register 5)
        (Option.some 9) FuelInfo.none =
      .ok ({ instrs := [.copy 9 0, .i32Add ⟨0, 1, 2⟩], labels := emptyLabels,
             lastInstr := Option.some 1, notifiedPreservation := Option.some 0 },
        sampleStack) := by
  have h := claim2_local_set_preserved_amended stLocalSet sampleStack () 0 5 9 0
    (.i32Add ⟨5, 1, 2⟩) (.i32Add ⟨0, 1, 2⟩) (by decide) rfl rfl (by decide) rfl rfl
    (by norm_num)
  rw [h]
  rfl

theorem get?_some_lt {α : Type} {l : List α} {i : Nat} {x : α}
    (h : l.get? i = Option.some x) : i < l.length := by
  by_contra hcon
  rw [List.get?_eq_none.mpr (Nat.le_of_not_lt hcon)] at h
  exact absurd h (by simp)

theorem bumpFuel_base_step (st : InstrEncoder) (costs : FuelCosts) (fidx n : Nat)
    (hf : st.instrs.get? fidx = Option.some (.consumeFuel n))
    (hov : n + costs.base < 2 ^ 64) :
    st.bumpFuelConsumption (FuelInfo.some costs fidx) FuelCosts.base =
      .ok { st with instrs := st.instrs.set fidx (.consumeFuel (n + costs.base)) } :=
  bumpFuel_consumeFuel st costs fidx n FuelCosts.base hf hov

theorem set_get?_self (st : InstrEncoder) (fidx n : Nat) (w : Instruction)
    (hf : st.instrs.get? fidx = Option.some (.consumeFuel n)) :
    ({ st with instrs := st.instrs.set fidx w } : InstrEncoder).instrs.get? fidx =
      Option.some w := by
  exact List.get?_set_eq_of_lt _ (get?_some_lt hf)

theorem encodeReturn_nil (st : InstrEncoder) (stack : ValueStack)
    (costs : FuelCosts) (fidx n : Nat)
    (hfuel : st.instrs.get? fidx = Option.some (.consumeFuel n))
    (hcap : st.instrs.length < 2 ^ 32) (hov : n + costs.base < 2 ^ 64) :
    st.encodeReturn stack [] (FuelInfo.some costs fidx) =
      .ok ({ st with
        instrs := st.instrs.set fidx (.consumeFuel (n + costs.base)) ++ [.ret],
        lastInstr := Option.some st.instrs.length }, stack) := by
  simp only [InstrEncoder.encodeReturn,
    bumpFuel_base_step st costs fidx n hfuel hov]
  rw [pushInstr_of_lt
    { st with instrs := st.instrs.set fidx (.consumeFuel (n + costs.base)) }
    Instruction.ret (by simp only [List.length_set]; exact hcap)]
  simp only [List.length_set]

theorem encodeReturn_one_reg (st : InstrEncoder) (stack : ValueStack)
    (costs : FuelCosts) (fidx n : Nat) (r : Reg)
    (hfuel : st.instrs.get? fidx = Option.some (.consumeFuel n))
    (hcap : st.instrs.length < 2 ^ 32) (hov : n + costs.base < 2 ^ 64) :
    st.encodeReturn stack [.register r] (FuelInfo.some costs fidx) =
      .ok ({ st with
        instrs := st.instrs.set fidx (.consumeFuel (n + costs.base)) ++ [.returnReg r],
        lastInstr := Option.some st.instrs.length }, stack) := by
  simp only [InstrEncoder.encodeReturn,
    bumpFuel_base_step st costs fidx n hfuel hov]
  rw [pushInstr_of_lt
    { st with instrs := st.instrs.set fidx (.consumeFuel (n + costs.base)) }
    (Instruction.returnReg r) (by simp only [List.length_set]; exact hcap)]
  simp only [List.length_set]

theorem encodeReturn_one_const (st : InstrEncoder) (stack : ValueStack)
    (costs : FuelCosts) (fidx n : Nat) (c : TypedValue)
    (hfuel : st.instrs.get? fidx = Option.some (.consumeFuel n))
    (hcap : st.instrs.length < 2 ^ 32) (hov : n + costs.base < 2 ^ 64) :
    ∃ (ins : Instruction) (stack' : ValueStack), isSingleReturnInstr ins = true ∧
      st.encodeReturn stack [.const c] (FuelInfo.some costs fidx) =
        .ok ({ st with
          instrs := st.instrs.set fidx (.consumeFuel (n + costs.base)) ++ [ins],
          lastInstr := Option.some st.instrs.length }, stack') := by
  have hpush : ∀ (ins : Instruction) (stack' : ValueStack),
      (match InstrEncoder.bumpFuelConsumption st (FuelInfo.some costs fidx)
          FuelCosts.base with
        | Except.error e => Except.error e
        | Except.ok st1 =>
            match st1.pushInstr ins with
            | Except.error e => Except.error e
            | Except.ok (_, st2) => Except.ok (st2, stack')) =
        Except.ok ({ st with
          instrs := st.instrs.set fidx (.consumeFuel (n + costs.base)) ++ [ins],
          lastInstr := Option.some st.instrs.length }, stack') := by
    intro ins stack'
    rw [bumpFuel_base_step st costs fidx n hfuel hov]
    show (match InstrEncoder.pushInstr
        { st with instrs := st.instrs.set fidx (.consumeFuel (n + costs.base)) } ins with
      | Except.error e => Except.error e
      | Except.ok (_, st2) => Except.ok (st2, stack')) = _
    rw [pushInstr_of_lt
      { st with instrs := st.instrs.set fidx (.consumeFuel (n + costs.base)) }
      ins (by simp only [List.length_set]; exact hcap)]
    simp only [List.length_set]
  cases c with
  | i32 v =>
      exact ⟨.returnImm32 (u32OfI32 v), stack, rfl, by
        simp only [InstrEncoder.encodeReturn]
        exact hpush _ stack⟩
  | f32 b =>
      exact ⟨.returnImm32 (b % 2 ^ 32), stack, rfl, by
        simp only [InstrEncoder.encodeReturn]
        exact hpush _ stack⟩
  | i64 v =>
      rcases h64 : i64ToConst32 v with _ | cv
      · exact ⟨.returnReg (stack.allocConst (.i64 v)).1,
          (stack.allocConst (.i64 v)).2, rfl, by
            simp only [InstrEncoder.encodeReturn, h64]
            exact hpush _ _⟩
      · exact ⟨.returnI64Imm32 cv, stack, rfl, by
          simp only [InstrEncoder.encodeReturn, h64]
          exact hpush _ stack⟩
  | f64 b =>
      rcases h64 : f64ToConst32 b with _ | cv
      · exact ⟨.returnReg (stack.allocConst (.f64 b)).1,
          (stack.allocConst (.f64 b)).2, rfl, by
            simp only [InstrEncoder.encodeReturn, h64]
            exact hpush _ _⟩
      · exact ⟨.returnF64Imm32 cv, stack, rfl, by
          simp only [InstrEncoder.encodeReturn, h64]
          exact hpush _ stack⟩
  | funcRef v =>
      exact ⟨.returnReg (stack.allocConst (.funcRef v)).1,
        (stack.allocConst (.funcRef v)).2, rfl, by
          simp only [InstrEncoder.encodeReturn]
          exact hpush _ _⟩
  | extRef v =>
      exact ⟨.returnReg (stack.allocConst (.extRef v)).1,
        (stack.allocConst (.extRef v)).2, rfl, by
          simp only [InstrEncoder.encodeReturn]
          exact hpush _ _⟩

theorem encodeReturn_two (st : InstrEncoder) (stack : ValueStack)
    (costs : FuelCosts) (fidx n : Nat) (v0 v1 : TypedProvider)
    (hfuel : st.instrs.get? fidx = Option.some (.consumeFuel n))
    (hcap : st.instrs.length < 2 ^ 32) (hov : n + costs.base < 2 ^ 64) :
    st.encodeReturn stack [v0, v1] (FuelInfo.some costs fidx) =
      .ok ({ st with
        instrs := st.instrs.set fidx (.consumeFuel (n + costs.base)) ++
          [.returnReg2 (provider2reg stack v0).1
            (provider2reg (provider2reg stack v0).2 v1).1],
        lastInstr := Option.some st.instrs.length },
        (provider2reg (provider2reg stack v0).2 v1).2) := by
  rcases hp0 : provider2reg stack v0 with ⟨r0, s0⟩
  rcases hp1 : provider2reg s0 v1 with ⟨r1, s1⟩
  simp only [InstrEncoder.encodeReturn, hp0, hp1,
    bumpFuel_base_step st costs fidx n hfuel hov]
  rw [pushInstr_of_lt
    { st with instrs := st.instrs.set fidx (.consumeFuel (n + costs.base)) }
    (Instruction.returnReg2 r0 r1) (by simp only [List.length_set]; exact hcap)]
  simp only [List.length_set]

theorem encodeReturn_three (st : InstrEncoder) (stack : ValueStack)
    (costs : FuelCosts) (fidx n : Nat) (v0 v1 v2 : TypedProvider)
    (hfuel : st.instrs.get? fidx = Option.some (.consumeFuel n))
    (hcap : st.instrs.length < 2 ^ 32) (hov : n + costs.base < 2 ^ 64) :
    st.encodeReturn stack [v0, v1, v2] (FuelInfo.some costs fidx) =
      .ok ({ st with
        instrs := st.instrs.set fidx (.consumeFuel (n + costs.base)) ++
          [.returnReg3 (provider2reg stack v0).1
            (provider2reg (provider2reg stack v0).2 v1).1
            (provider2reg (provider2reg (provider2reg stack v0).2 v1).2 v2).1],
        lastInstr := Option.some st.instrs.length },
        (provider2reg (provider2reg (provider2reg stack v0).2 v1).2 v2).2) := by
  rcases hp0 : provider2reg stack v0 with ⟨r0, s0⟩
  rcases hp1 : provider2reg s0 v1 with ⟨r1, s1⟩
  rcases hp2 : provider2reg s1 v2 with ⟨r2, s2⟩
  simp only [InstrEncoder.encodeReturn, hp0, hp1, hp2,
    bumpFuel_base_step st costs fidx n hfuel hov]
  rw [pushInstr_of_lt
    { st with instrs := st.instrs.set fidx (.consumeFuel (n + costs.base)) }
    (Instruction.returnReg3 r0 r1 r2) (by simp only [List.length_set]; exact hcap)]
  simp only [List.length_set]

theorem encodeReturn_ge4_span (st : InstrEncoder) (stack : ValueStack)
    (costs : FuelCosts) (fidx n : Nat) (v0 v1 v2 v3 : TypedProvider)
    (rest : List TypedProvider) (spanIter : RegisterSpanIter)
    (hfuel : st.instrs.get? fidx = Option.some (.consumeFuel n))
    (hcap : st.instrs.length < 2 ^ 32)
    (hov : n + costs.base + costs.fuelForCopies ((v3 :: rest).length + 3) < 2 ^ 64)
    (hspan : RegisterSpanIter.fromProviders (v0 :: v1 :: v2 :: v3 :: rest) =
      Option.some spanIter) :
    st.encodeReturn stack (v0 :: v1 :: v2 :: v3 :: rest) (FuelInfo.some costs fidx) =
      .ok ({ st with
        instrs := st.instrs.set fidx (.consumeFuel
            (n + costs.base + costs.fuelForCopies ((v3 :: rest).length + 3))) ++
          [.returnSpan spanIter],
        lastInstr := Option.some st.instrs.length }, stack) := by
  have hb1 := bumpFuel_base_step st costs fidx n hfuel (by omega)
  have hb2 := bumpFuel_consumeFuel
    { st with instrs := st.instrs.set fidx (.consumeFuel (n + costs.base)) }
    costs fidx (n + costs.base)
    (fun costs => costs.fuelForCopies ((v3 :: rest).length + 3))
    (set_get?_self st fidx n _ hfuel)
    (show n + costs.base + costs.fuelForCopies ((v3 :: rest).length + 3) < 2 ^ 64
      by omega)
  simp only [InstrEncoder.encodeReturn, hb1, hb2, List.set_set, hspan]
  rw [pushInstr_of_lt
    { st with instrs := st.instrs.set fidx (.consumeFuel
        (n + costs.base + costs.fuelForCopies ((v3 :: rest).length + 3))) }
    (Instruction.returnSpan spanIter) (by simp only [List.length_set]; exact hcap)]
  simp only [List.length_set]

theorem encodeReturn_ge4_many (st : InstrEncoder) (stack : ValueStack)
    (costs : FuelCosts) (fidx n : Nat) (v0 v1 v2 v3 : TypedProvider)
    (rest : List TypedProvider)
    (hfuel : st.instrs.get? fidx = Option.some (.consumeFuel n))
    (hcap : st.instrs.length < 2 ^ 32)
    (hov : n + costs.base + costs.fuelForCopies ((v3 :: rest).length + 3) < 2 ^ 64)
    (hnone : RegisterSpanIter.fromProviders (v0 :: v1 :: v2 :: v3 :: rest) =
      Option.none) :
    st.encodeReturn stack (v0 :: v1 :: v2 :: v3 :: rest) (FuelInfo.some costs fidx) =
      InstrEncoder.encodeRegisterList
        { st with
          instrs := st.instrs.set fidx (.consumeFuel
              (n + costs.base + costs.fuelForCopies ((v3 :: rest).length + 3))) ++
            [.returnMany (provider2reg stack v0).1
              (provider2reg (provider2reg stack v0).2 v1).1
              (provider2reg (provider2reg (provider2reg stack v0).2 v1).2 v2).1],
          lastInstr := Option.some st.instrs.length }
        (provider2reg (provider2reg (provider2reg stack v0).2 v1).2 v2).2
        (v3 :: rest) := by
  have hb1 := bumpFuel_base_step st costs fidx n hfuel (by omega)
  have hb2 := bumpFuel_consumeFuel
    { st with instrs := st.instrs.set fidx (.consumeFuel (n + costs.base)) }
    costs fidx (n + costs.base)
    (fun costs => costs.fuelForCopies ((v3 :: rest).length + 3))
    (set_get?_self st fidx n _ hfuel)
    (show n + costs.base + costs.fuelForCopies ((v3 :: rest).length + 3) < 2 ^ 64
      by omega)
  rcases hp0 : provider2reg stack v0 with ⟨r0, s0⟩
  rcases hp1 : provider2reg s0 v1 with ⟨r1, s1⟩
  rcases hp2 : provider2reg s1 v2 with ⟨r2, s2⟩
  simp only [InstrEncoder.encodeReturn, hb1, hb2, List.set_set, hnone, hp0, hp1, hp2]
  rw [pushInstr_of_lt
    { st with instrs := st.instrs.set fidx (.consumeFuel
        (n + costs.base + costs.fuelForCopies ((v3 :: rest).length + 3))) }
    (Instruction.returnMany r0 r1 r2) (by simp only [List.length_set]; exact hcap)]
  simp only [List.length_set]

/-- C8 (confirmed): with fuel metering on, `encode_return` on `len ≥ 4`
values charges `base + fuel_for_copies((len − 3) + 3)` fuel and emits a
single `return_span` when the values form a contiguous register span,
otherwise `return_many` with the first three registers followed by the
register-list encoding of the tail; for lengths `0, 1, 2, 3` it charges
`base` and emits `Return`, `return_reg`/`return_imm*` (by constant type and
range), `return_reg2` and `return_reg3` respectively. -/
theorem claim8_encode_return (st : InstrEncoder) (stack : ValueStack)
    (costs : FuelCosts) (fidx n : Nat)
    (hfuel : st.instrs.get? fidx = Option.some (.consumeFuel n))
    (hcap : st.instrs.length < 2 ^ 32) :
    (∀ (v0 v1 v2 v3 : TypedProvider) (rest : List TypedProvider)
        (spanIter : RegisterSpanIter),
      n + costs.base + costs.fuelForCopies
          (((v0 :: v1 :: v2 :: v3 :: rest).length - 3) + 3) < 2 ^ 64 →
      RegisterSpanIter.fromProviders (v0 :: v1 :: v2 :: v3 :: rest) =
        Option.some spanIter →
      st.encodeReturn stack (v0 :: v1 :: v2 :: v3 :: rest)
          (FuelInfo.some costs fidx) =
        .ok ({ st with
          instrs := st.instrs.set fidx (.consumeFuel
              (n + costs.base + costs.fuelForCopies
                (((v0 :: v1 :: v2 :: v3 :: rest).length - 3) + 3))) ++
            [.returnSpan spanIter],
          lastInstr := Option.some st.instrs.length }, stack))
    ∧ (∀ (v0 v1 v2 v3 : TypedProvider) (rest : List TypedProvider),
      n + costs.base + costs.fuelForCopies
          (((v0 :: v1 :: v2 :: v3 :: rest).length - 3) + 3) < 2 ^ 64 →
      RegisterSpanIter.fromProviders (v0 :: v1 :: v2 :: v3 :: rest) = Option.none →
      st.encodeReturn stack (v0 :: v1 :: v2 :: v3 :: rest)
          (FuelInfo.some costs fidx) =
        InstrEncoder.encodeRegisterList
          { st with
            instrs := st.instrs.set fidx (.consumeFuel
                (n + costs.base + costs.fuelForCopies
                  (((v0 :: v1 :: v2 :: v3 :: rest).length - 3) + 3))) ++
              [.returnMany (provider2reg stack v0).1
                (provider2reg (provider2reg stack v0).2 v1).1
                (provider2reg (provider2reg (provider2reg stack v0).2 v1).2 v2).1],
            lastInstr := Option.some st.instrs.length }
          (provider2reg (provider2reg (provider2reg stack v0).2 v1).2 v2).2
          (v3 :: rest))
    ∧ (n + costs.base < 2 ^ 64 →
      (st.encodeReturn stack [] (FuelInfo.some costs fidx) =
        .ok ({ st with
          instrs := st.instrs.set fidx (.consumeFuel (n + costs.base)) ++ [.ret],
          lastInstr := Option.some st.instrs.length }, stack))
      ∧ (∀ r : Reg, st.encodeReturn stack [.register r] (FuelInfo.some costs fidx) =
        .ok ({ st with
          instrs := st.instrs.set fidx (.consumeFuel (n + costs.base)) ++
            [.returnReg r],
          lastInstr := Option.some st.instrs.length }, stack))
      ∧ (∀ c : TypedValue, ∃ (ins : Instruction) (stack' : ValueStack),
          isSingleReturnInstr ins = true ∧
          st.encodeReturn stack [.const c] (FuelInfo.some costs fidx) =
            .ok ({ st with
              instrs := st.instrs.set fidx (.consumeFuel (n + costs.base)) ++ [ins],
              lastInstr := Option.some st.instrs.length }, stack'))
      ∧ (∀ v0 v1 : TypedProvider,
          st.encodeReturn stack [v0, v1] (FuelInfo.some costs fidx) =
            .ok ({ st with
              instrs := st.instrs.set fidx (.consumeFuel (n + costs.base)) ++
                [.returnReg2 (provider2reg stack v0).1
                  (provider2reg (provider2reg stack v0).2 v1).1],
              lastInstr := Option.some st.instrs.length },
              (provider2reg (provider2reg stack v0).2 v1).2))
      ∧ (∀ v0 v1 v2 : TypedProvider,
          st.encodeReturn stack [v0, v1, v2] (FuelInfo.some costs fidx) =
            .ok ({ st with
              instrs := st.instrs.set fidx (.consumeFuel (n + costs.base)) ++
                [.returnReg3 (provider2reg stack v0).1
                  (provider2reg (provider2reg stack v0).2 v1).1
                  (provider2reg (provider2reg (provider2reg stack v0).2 v1).2 v2).1],
              lastInstr := Option.some st.instrs.length },
              (provider2reg (provider2reg (provider2reg stack v0).2 v1).2 v2).2))) := by
  have harg : ∀ (v3 : TypedProvider) (rest : List TypedProvider)
      (v0 v1 v2 : TypedProvider),
      ((v0 :: v1 :: v2 :: v3 :: rest).length - 3) + 3 = (v3 :: rest).length + 3 := by
    intro v3 rest v0 v1 v2
    simp only [List.length_cons]
    omega
  refine ⟨?_, ?_, ?_⟩
  · intro v0 v1 v2 v3 rest spanIter hov hspan
    rw [harg v3 rest v0 v1 v2] at hov ⊢
    exact encodeReturn_ge4_span st stack costs fidx n v0 v1 v2 v3 rest spanIter
      hfuel hcap hov hspan
  · intro v0 v1 v2 v3 rest hov hnone
    rw [harg v3 rest v0 v1 v2] at hov ⊢
    exact encodeReturn_ge4_many st stack costs fidx n v0 v1 v2 v3 rest
      hfuel hcap hov hnone
  · intro hov
    exact ⟨encodeReturn_nil st stack costs fidx n hfuel hcap hov,
      fun r => encodeReturn_one_reg st stack costs fidx n r hfuel hcap hov,
      fun c => encodeReturn_one_const st stack costs fidx n c hfuel hcap hov,
      fun v0 v1 => encodeReturn_two st stack costs fidx n v0 v1 hfuel hcap hov,
      fun v0 v1 v2 => encodeReturn_three st stack costs fidx n v0 v1 v2 hfuel hcap hov⟩

/-- Witness for C8: four contiguous register values return via a single
`return_span` and the block's `ConsumeFuel` word is bumped by
`base + fuel_for_copies(4) = 5`. -/
theorem claim8_witness :
    InstrEncoder.encodeReturn
        { instrs := [.consumeFuel 0], labels := emptyLabels,
          lastInstr := Option.none, notifiedPreservation := Option.none }
        sampleStack [.register 1, .register 2, .register 3, .register 4]
        (FuelInfo.some sampleCosts 0) =
      .ok ({ instrs := [.consumeFuel 5, .returnSpan ⟨1, 4⟩], labels := emptyLabels,
             lastInstr := Option.some 1, notifiedPreservation := Option.none },
        sampleStack) := by
  have h := (claim8_encode_return
    { instrs := [.consumeFuel 0], labels := emptyLabels,
      lastInstr := Option.none, notifiedPreservation := Option.none }
    sampleStack sampleCosts 0 0 rfl (by norm_num)).1
    (.register 1) (.register 2) (.register 3) (.register 4) [] ⟨1, 4⟩
    (by decide) rfl
  rw [h]
  rfl

theorem tryResolve_pinned (labels : LabelRegistry) (label user target : Nat)
    (hpin : labels.pins.get? label = Option.some (Option.some target)) :
    tryResolveLabelFor labels label user =
      .ok ((target : Int) - (user : Int), labels) := by
  simp only [tryResolveLabelFor, hpin]

theorem branchOffset16New_inrange (o : Int) (hne : o ≠ 0) (hlo : -(2 ^ 15) ≤ o)
    (hhi : o < 2 ^ 15) : branchOffset16New o = Option.some o := by
  unfold branchOffset16New
  rw [if_neg hne, if_pos ⟨hlo, hhi⟩]

theorem branchOffset16TryFrom_inrange (o : Int) (hlo : -(2 ^ 15) ≤ o)
    (hhi : o < 2 ^ 15) : branchOffset16TryFrom o = .ok o := by
  unfold branchOffset16TryFrom branchOffset16New
  by_cases h0 : o = 0
  · subst h0
    simp
  · rw [if_neg h0, if_pos ⟨hlo, hhi⟩]

theorem fuseCmpBranch_pinned (st : InstrEncoder) (stack : ValueStack) (h : Nat)
    (b : BinInstr) (label target : Nat)
    (hres : ¬stack.regSpace b.result = RegisterSpace.localSpace)
    (hpin : st.labels.pins.get? label = Option.some (Option.some target))
    (hne : (target : Int) - (h : Int) ≠ 0)
    (hlo : -(2 ^ 15) ≤ (target : Int) - (h : Int))
    (hhi : (target : Int) - (h : Int) < 2 ^ 15) :
    ∀ mk : Reg → Reg → Int → Instruction,
      fuseCmpBranch st stack h b label mk =
        .ok (Option.some (mk b.lhs b.rhs ((target : Int) - (h : Int))),
          { st with labels := st.labels }) := by
  intro mk
  unfold fuseCmpBranch
  rw [if_neg hres]
  simp only [tryResolve_pinned st.labels label h target hpin,
    branchOffset16New_inrange _ hne hlo hhi]

theorem encodeBranchEqzFallback_pinned (st : InstrEncoder) (condition : Reg)
    (label target : Nat)
    (hpin : st.labels.pins.get? label = Option.some (Option.some target))
    (hcap : st.instrs.length < 2 ^ 32)
    (hlo : -(2 ^ 15) ≤ (target : Int) - (st.instrs.length : Int))
    (hhi : (target : Int) - (st.instrs.length : Int) < 2 ^ 15) :
    st.encodeBranchEqzFallback condition label =
      .ok { st with
        instrs := st.instrs ++
          [.branchI32Eqz condition ((target : Int) - (st.instrs.length : Int))],
        lastInstr := Option.some st.instrs.length } := by
  unfold InstrEncoder.encodeBranchEqzFallback
  simp only [tryResolve_pinned st.labels label st.instrs.length target hpin,
    branchOffset16TryFrom_inrange _ hlo hhi]
  rw [pushInstr_of_lt { st with labels := st.labels }
    (.branchI32Eqz condition ((target : Int) - (st.instrs.length : Int))) hcap]

theorem encodeBranchNezFallback_pinned (st : InstrEncoder) (condition : Reg)
    (label target : Nat)
    (hpin : st.labels.pins.get? label = Option.some (Option.some target))
    (hcap : st.instrs.length < 2 ^ 32)
    (hlo : -(2 ^ 15) ≤ (target : Int) - (st.instrs.length : Int))
    (hhi : (target : Int) - (st.instrs.length : Int) < 2 ^ 15) :
    st.encodeBranchNezFallback condition label =
      .ok { st with
        instrs := st.instrs ++
          [.branchI32Nez condition ((target : Int) - (st.instrs.length : Int))],
        lastInstr := Option.some st.instrs.length } := by
  unfold InstrEncoder.encodeBranchNezFallback
  simp only [tryResolve_pinned st.labels label st.instrs.length target hpin,
    branchOffset16TryFrom_inrange _ hlo hhi]
  rw [pushInstr_of_lt { st with labels := st.labels }
    (.branchI32Nez condition ((target : Int) - (st.instrs.length : Int))) hcap]

/-- C1 (amended): for a last float comparison with non-local result and a
pinned label whose offset from the comparison fits 16 bits,
`encode_branch_nez` fuses all twelve float comparisons in place into the
same-polarity fused branch; `encode_branch_eqz` fuses only `F32Eq` and
`F32Ne` (into the negated fused branch) — every other float comparison,
`F64Eq`/`F64Ne` included, is not fused and falls back to appending an
unfused `branch_i32_eqz`. -/
theorem claim1_float_branch_fusion (st : InstrEncoder) (stack : ValueStack)
    (condition : Reg) (label target h : Nat) (op : FloatCmpOp) (b : BinInstr)
    (hlast : st.lastInstr = Option.some h)
    (hins : st.instrs.get? h = Option.some (op.toInstr b))
    (hres : ¬stack.regSpace b.result = RegisterSpace.localSpace)
    (hpin : st.labels.pins.get? label = Option.some (Option.some target))
    (hne : (target : Int) - (h : Int) ≠ 0)
    (hlo : -(2 ^ 15) ≤ (target : Int) - (h : Int))
    (hhi : (target : Int) - (h : Int) < 2 ^ 15)
    (hcap : st.instrs.length < 2 ^ 32)
    (hlo2 : -(2 ^ 15) ≤ (target : Int) - (st.instrs.length : Int))
    (hhi2 : (target : Int) - (st.instrs.length : Int) < 2 ^ 15) :
    (st.encodeBranchNez stack condition label =
      .ok { st with instrs :=
        st.instrs.set h (op.sameBranch b ((target : Int) - (h : Int))) })
    ∧ (∀ mk, eqzFloatFusion op = Option.some mk →
      st.encodeBranchEqz stack condition label =
        .ok { st with instrs :=
          st.instrs.set h (mk b ((target : Int) - (h : Int))) })
    ∧ (eqzFloatFusion op = Option.none →
      st.encodeBranchEqz stack condition label =
        .ok { st with
          instrs := st.instrs ++
            [.branchI32Eqz condition ((target : Int) - (st.instrs.length : Int))],
          lastInstr := Option.some st.instrs.length }) := by
  have hfb := encodeBranchEqzFallback_pinned st condition label target hpin hcap hlo2 hhi2
  have hfuse := fuseCmpBranch_pinned st stack h b label target hres hpin hne hlo hhi
  cases op <;>
    (refine ⟨?_, ?_, ?_⟩
     · simp only [FloatCmpOp.toInstr] at hins
       simp only [InstrEncoder.encodeBranchNez, hlast, hins, hfuse,
         FloatCmpOp.sameBranch]
     · intro mk hmk
       simp only [eqzFloatFusion] at hmk
       first
         | (injection hmk with hmk
            subst hmk
            simp only [FloatCmpOp.toInstr] at hins
            simp only [InstrEncoder.encodeBranchEqz, hlast, hins, hfuse])
         | injection hmk
     · intro hn
       try simp only [eqzFloatFusion, reduceCtorEq] at hn
       try (simp only [FloatCmpOp.toInstr] at hins
            simp only [InstrEncoder.encodeBranchEqz, hlast, hins, hfb]))

/-- Counterexample for C1 as frozen: a last `F64Eq` with dynamic result and a
pinned in-range label is *not* fused by `encode_branch_eqz` into
`branch_f64_ne`: the comparison stays at handle `0` and an unfused
`branch_i32_eqz` is appended, growing the sequence. -/
theorem claim1_counterexample :
    InstrEncoder.encodeBranchEqz stF64Eq sampleStack 9 0 =
      .ok { instrs := [.f64Eq ⟨5, 6, 7⟩, .branchI32Eqz 9 0],
            labels := { pins := [Option.some 1], users := [] },
            lastInstr := Option.some 1, notifiedPreservation := Option.none } ∧
      ([.f64Eq ⟨5, 6, 7⟩, .branchI32Eqz 9 0] : List Instruction).length ≠
        stF64Eq.instrs.length := by
  constructor
  · rfl
  · norm_num [stF64Eq]

/-- Witness for C1 (amended): on the `F64Eq` state, `encode_branch_nez`
fuses in place to `branch_f64_eq` while `encode_branch_eqz` appends the
unfused fallback. -/
theorem claim1_witness :
    (InstrEncoder.encodeBranchNez stF64Eq sampleStack 9 0 =
      .ok { instrs := [.branchF64Eq ⟨6, 7, 1⟩],
            labels := { pins := [Option.some 1], users := [] },
            lastInstr := Option.some 0, notifiedPreservation := Option.none })
    ∧ (InstrEncoder.encodeBranchEqz stF64Eq sampleStack 9 0 =
      .ok { instrs := [.f64Eq ⟨5, 6, 7⟩, .branchI32Eqz 9 0],
            labels := { pins := [Option.some 1], users := [] },
            lastInstr := Option.some 1, notifiedPreservation := Option.none }) := by
  obtain ⟨hnez, -, heqz⟩ := claim1_float_branch_fusion stF64Eq sampleStack 9 0 1 0
    .f64eq ⟨5, 6, 7⟩ rfl rfl (by decide) rfl (by decide) (by decide) (by decide)
    (by decide) (by decide) (by decide)
  constructor
  · rw [hnez]
    rfl
  · rw [heqz rfl]
    rfl

end Theorems

end Wasmi
